import Mathlib

/-!
# Verification of the Forbes brand-store form controller (src/main.js)

This file gives a shallow embedding of the browser-side form controller in
`src/main.js` (the current revision, i.e. the second of the two revisions in
that file) and proves properties about it.  JS `Map`s are modelled as
insertion-ordered association lists, DOM field state as explicit records,
and the asynchronous request machinery as a labelled transition system with
explicit completion events.
-/

namespace FTG

/-! ## JS-style helpers -/

/-- JS truthiness of a nullable string: `null` and the empty string are falsy. -/
def jsTruthyOpt : Option String → Bool
  | none => false
  | some s => decide (s ≠ "")

/-- JS `x || null` on a nullable string value: a falsy value collapses to `null`. -/
def jsOrNone : Option String → Option String
  | none => none
  | some s => if s = "" then none else some s

/-- JS `s || null` for a plain string. -/
def strOrNone (s : String) : Option String := if s = "" then none else some s

/-- JS `String.prototype.trim`, modelled on the character list so that it
evaluates by kernel reduction (whitespace per `Char.isWhitespace`). -/
def jsTrim (s : String) : String :=
  ⟨((s.data.dropWhile Char.isWhitespace).reverse.dropWhile Char.isWhitespace).reverse⟩

/-- JS `String.prototype.toLowerCase` (character-wise `Char.toLower`). -/
def jsToLower (s : String) : String := ⟨s.data.map Char.toLower⟩

/-! ## Lookup cache (src/main.js lines 694-713)

`airtableCache` is a JS `Map`; we model it as a `List (K × V)` in insertion
order (head = oldest entry, the one `keys().next().value` returns). -/

/-- JS `Map.get`: association lookup in an insertion-ordered map. -/
def alookup {K V : Type} [DecidableEq K] : List (K × V) → K → Option V
  | [], _ => none
  | p :: t, k => if p.1 = k then some p.2 else alookup t k

/-- JS `Map.delete`: remove the entry with the given key. -/
def adelete {K V : Type} [DecidableEq K] (m : List (K × V)) (k : K) : List (K × V) :=
  m.filter (fun p => decide (p.1 ≠ k))

/-- `cacheGet` from the source: on a hit the entry is deleted and re-inserted at
the most-recent end (recency refresh), and its value returned. -/
def cacheGet {K V : Type} [DecidableEq K] (c : List (K × V)) (k : K) :
    Option V × List (K × V) :=
  match alookup c k with
  | none => (none, c)
  | some v => (some v, adelete c k ++ [(k, v)])

/-- `cacheSet` from the source: delete any existing entry, insert at the
most-recent end, and if the size now exceeds the capacity delete the first
(oldest) entry. -/
def cacheSet {K V : Type} [DecidableEq K] (N : Nat) (c : List (K × V)) (k : K) (v : V) :
    List (K × V) :=
  let c0 := if (alookup c k).isSome then adelete c k else c
  let c1 := c0 ++ [(k, v)]
  if N < c1.length then c1.drop 1 else c1

/-- `MAX_CACHE` from the source. -/
def MAX_CACHE : Nat := 50

/-- A cache operation: read or write. -/
inductive CacheOp (K V : Type)
  | get (k : K)
  | put (k : K) (v : V)

/-- One cache operation applied to the implementation state. -/
def cacheStep {K V : Type} [DecidableEq K] (N : Nat) (c : List (K × V)) :
    CacheOp K V → List (K × V)
  | .get k => (cacheGet c k).2
  | .put k v => cacheSet N c k v

/-- Run a sequence of cache operations on the implementation. -/
def cacheRun {K V : Type} [DecidableEq K] (N : Nat) (ops : List (CacheOp K V))
    (c : List (K × V)) : List (K × V) :=
  ops.foldl (cacheStep N) c

/-- The last `n` elements of a list (the `n` most recent entries). -/
def lastN (n : Nat) (l : List α) : List α := l.drop (l.length - n)

/-- Touch a key in the unbounded recency history: any previous occurrence is
removed and the entry re-appended at the most-recent end. -/
def touchEntry {K V : Type} [DecidableEq K] (h : List (K × V)) (k : K) (v : V) :
    List (K × V) :=
  adelete h k ++ [(k, v)]

/-- Specification-side model of the cache, following the spec's words: the cache
holds "the N most-recently-touched keys"; a put always touches, a get touches
exactly when the key is among the `N` most recently touched (i.e. present). The
history is kept unbounded; the cache is its last-`N` window. -/
def histStep {K V : Type} [DecidableEq K] (N : Nat) (h : List (K × V)) :
    CacheOp K V → List (K × V)
  | .put k v => touchEntry h k v
  | .get k =>
      match alookup (lastN N h) k with
      | some v => touchEntry h k v
      | none => h

/-- Run a sequence of cache operations on the specification model. -/
def histRun {K V : Type} [DecidableEq K] (N : Nat) (ops : List (CacheOp K V))
    (h : List (K × V)) : List (K × V) :=
  ops.foldl (histStep N) h

/-! ### Cache lemmas -/

theorem alookup_eq_none {K V : Type} [DecidableEq K] (m : List (K × V)) (k : K) :
    alookup m k = none ↔ k ∉ m.map Prod.fst := by
  induction m with
  | nil => simp [alookup]
  | cons p t ih =>
      by_cases h : p.1 = k
      · simp [alookup, h]
      · simp [alookup, h, ih, Ne.symm h]

theorem alookup_isSome {K V : Type} [DecidableEq K] (m : List (K × V)) (k : K) :
    (alookup m k).isSome = true ↔ k ∈ m.map Prod.fst := by
  rw [Option.isSome_iff_ne_none]
  constructor
  · intro h
    by_contra hmem
    exact h ((alookup_eq_none m k).mpr hmem)
  · intro h
    intro hn
    exact ((alookup_eq_none m k).mp hn) h

theorem alookup_append_left {K V : Type} [DecidableEq K] (a b : List (K × V)) (k : K)
    (h : alookup a k = none) : alookup (a ++ b) k = alookup b k := by
  induction a with
  | nil => simp
  | cons p t ih =>
      by_cases hp : p.1 = k
      · simp [alookup, hp] at h
      · simp only [alookup, hp] at h
        simpa [alookup, hp] using ih h

theorem adelete_append {K V : Type} [DecidableEq K] (a b : List (K × V)) (k : K) :
    adelete (a ++ b) k = adelete a k ++ adelete b k := by
  simp [adelete, List.filter_append]

theorem adelete_cons {K V : Type} [DecidableEq K] (p : K × V) (t : List (K × V)) (k : K) :
    adelete (p :: t) k = if p.1 = k then adelete t k else p :: adelete t k := by
  by_cases hp : p.1 = k <;> simp [adelete, List.filter_cons, hp]

theorem adelete_length_le {K V : Type} [DecidableEq K] (m : List (K × V)) (k : K) :
    (adelete m k).length ≤ m.length :=
  List.length_filter_le _ _

theorem adelete_eq_self {K V : Type} [DecidableEq K] (a : List (K × V)) (k : K)
    (h : k ∉ a.map Prod.fst) : adelete a k = a := by
  induction a with
  | nil => rfl
  | cons p t ih =>
      simp only [List.map_cons, List.mem_cons, not_or] at h
      rw [adelete_cons, if_neg (fun e => h.1 e.symm), ih h.2]

theorem keys_adelete {K V : Type} [DecidableEq K] (m : List (K × V)) (k : K) :
    (adelete m k).map Prod.fst = (m.map Prod.fst).filter (fun x => decide (x ≠ k)) := by
  induction m with
  | nil => rfl
  | cons p t ih =>
      rw [adelete_cons]
      by_cases h : p.1 = k
      · simp [h, List.filter_cons, ih]
      · simp [h, List.filter_cons, ih]

theorem not_mem_keys_adelete {K V : Type} [DecidableEq K] (m : List (K × V)) (k : K) :
    k ∉ (adelete m k).map Prod.fst := by
  rw [keys_adelete]
  intro h
  have := List.of_mem_filter h
  simp at this

theorem adelete_length_lt {K V : Type} [DecidableEq K] (m : List (K × V)) (k : K)
    (h : k ∈ m.map Prod.fst) : (adelete m k).length < m.length := by
  induction m with
  | nil => simp at h
  | cons p t ih =>
      rw [adelete_cons]
      by_cases hp : p.1 = k
      · rw [if_pos hp]
        have := adelete_length_le t k
        simp only [List.length_cons]
        omega
      · rw [if_neg hp]
        simp only [List.map_cons, List.mem_cons] at h
        rcases h with h | h
        · exact absurd h.symm hp
        · have := ih h
          simp only [List.length_cons]
          omega

theorem adelete_length_of_nodup {K V : Type} [DecidableEq K] (m : List (K × V)) (k : K)
    (hnd : (m.map Prod.fst).Nodup) (h : k ∈ m.map Prod.fst) :
    (adelete m k).length + 1 = m.length := by
  induction m with
  | nil => simp at h
  | cons p t ih =>
      simp only [List.map_cons, List.nodup_cons] at hnd
      rw [adelete_cons]
      by_cases hp : p.1 = k
      · rw [if_pos hp]
        have hkt : k ∉ t.map Prod.fst := hp ▸ hnd.1
        rw [adelete_eq_self t k hkt]
        simp
      · rw [if_neg hp]
        simp only [List.map_cons, List.mem_cons] at h
        rcases h with h | h
        · exact absurd h.symm hp
        · have := ih hnd.2 h
          simp only [List.length_cons]
          omega

theorem drop_append_len {α : Type} (a b : List α) (m : Nat) :
    (a ++ b).drop (a.length + m) = b.drop m := by
  induction a with
  | nil => simp
  | cons x t ih => simp [Nat.succ_add, ih]

theorem drop_append_le {α : Type} (a b : List α) (m : Nat) (h : m ≤ a.length) :
    (a ++ b).drop m = a.drop m ++ b := by
  induction a generalizing m with
  | nil =>
      have : m = 0 := Nat.le_zero.mp h
      simp [this]
  | cons x t ih =>
      cases m with
      | zero => simp
      | succ m =>
          simp only [List.length_cons, Nat.succ_le_succ_iff] at h
          simpa using ih m h

theorem lastN_of_le {α : Type} (n : Nat) (l : List α) (h : l.length ≤ n) :
    lastN n l = l := by
  have : l.length - n = 0 := Nat.sub_eq_zero_of_le h
  simp [lastN, this]

theorem length_lastN {α : Type} (n : Nat) (l : List α) :
    (lastN n l).length = l.length - (l.length - n) := by
  simp [lastN]

theorem lastN_append_of_le {α : Type} (n : Nat) (a b : List α) (h : n ≤ b.length) :
    lastN n (a ++ b) = lastN n b := by
  unfold lastN
  have hlen : (a ++ b).length - n = a.length + (b.length - n) := by
    simp [List.length_append]
    omega
  rw [hlen, drop_append_len]

theorem take_append_lastN {α : Type} (n : Nat) (l : List α) :
    l.take (l.length - n) ++ lastN n l = l := by
  simp [lastN, List.take_append_drop]

theorem lastN_keys_nodup {K V : Type} (N : Nat) (h : List (K × V))
    (hnd : (h.map Prod.fst).Nodup) : ((lastN N h).map Prod.fst).Nodup := by
  have hsplit := take_append_lastN N h
  have : (h.map Prod.fst) = (h.take (h.length - N)).map Prod.fst ++ (lastN N h).map Prod.fst := by
    rw [← List.map_append, hsplit]
  rw [this] at hnd
  exact (List.nodup_append.mp hnd).2.1

/-- Keys of the touch history stay duplicate-free. -/
theorem touchEntry_keys_nodup {K V : Type} [DecidableEq K] (h : List (K × V)) (k : K) (v : V)
    (hnd : (h.map Prod.fst).Nodup) : ((touchEntry h k v).map Prod.fst).Nodup := by
  unfold touchEntry
  rw [List.map_append]
  rw [List.nodup_append]
  refine ⟨?_, by simp, ?_⟩
  · rw [keys_adelete]
    exact hnd.filter _
  · intro x hx hy
    simp only [List.map_cons, List.map_nil, List.mem_singleton] at hy
    rw [hy] at hx
    exact not_mem_keys_adelete h k hx

/-- Core refinement step, insertion case: touching key `k` with value `v` in the
implementation window equals the last-`N` window of the touched history. -/
theorem cacheSet_refines {K V : Type} [DecidableEq K] (N : Nat) (h : List (K × V))
    (k : K) (v : V) (hnd : (h.map Prod.fst).Nodup) :
    cacheSet N (lastN N h) k v = lastN N (touchEntry h k v) := by
  set pre := h.take (h.length - N) with hpre
  set win := lastN N h with hwin
  have hsplit : pre ++ win = h := take_append_lastN N h
  have hwinlen : win.length = h.length - (h.length - N) := length_lastN N h
  have hkeys : (h.map Prod.fst) = pre.map Prod.fst ++ win.map Prod.fst := by
    rw [← List.map_append, hsplit]
  have hnd' := hnd
  rw [hkeys] at hnd'
  have hndparts := List.nodup_append.mp hnd'
  by_cases hk : k ∈ win.map Prod.fst
  · -- key inside the window: the displaced entry is deleted, no eviction
    have hkpre : k ∉ pre.map Prod.fst := fun hmem => hndparts.2.2 hmem hk
    have hdel : adelete h k = pre ++ adelete win k := by
      rw [← hsplit, adelete_append, adelete_eq_self pre k hkpre]
    have hlooksome : (alookup win k).isSome = true := (alookup_isSome win k).mpr hk
    have hlen : (adelete win k).length + 1 = win.length :=
      adelete_length_of_nodup win k (lastN_keys_nodup N h hnd) hk
    have happlen : (adelete win k ++ [(k, v)]).length = win.length := by
      simp only [List.length_append, List.length_cons, List.length_nil]
      omega
    unfold cacheSet
    simp only [hlooksome, if_true]
    have hnolt : ¬ N < (adelete win k ++ [(k, v)]).length := by
      rw [happlen]
      omega
    rw [if_neg hnolt]
    unfold touchEntry
    rw [hdel, List.append_assoc]
    by_cases hfull : N ≤ h.length
    · have hge : N ≤ (adelete win k ++ [(k, v)]).length := by
        rw [happlen]
        omega
      rw [lastN_append_of_le N pre _ hge]
      have hle : (adelete win k ++ [(k, v)]).length ≤ N := by
        rw [happlen]
        omega
      rw [lastN_of_le N _ hle]
    · have hpre0 : pre = [] := by
        rw [hpre]
        have hz : h.length - N = 0 := by omega
        simp [hz]
      rw [hpre0, List.nil_append]
      have hle : (adelete win k ++ [(k, v)]).length ≤ N := by
        rw [happlen]
        omega
      rw [lastN_of_le N _ hle]
  · -- key outside the window: appended, with the oldest entry evicted if full
    have hlooknone : alookup win k = none := (alookup_eq_none win k).mpr hk
    unfold cacheSet
    simp only [hlooknone, Option.isSome_none, Bool.false_eq_true, if_false]
    have hdelwin : adelete win k = win := adelete_eq_self win k hk
    unfold touchEntry
    have hdel : adelete h k = adelete pre k ++ win := by
      rw [← hsplit, adelete_append, hdelwin]
    rw [hdel, List.append_assoc]
    have happlen : (win ++ [(k, v)]).length = win.length + 1 := by
      simp
    by_cases hfull : N ≤ h.length
    · have hwN : win.length = N := by omega
      have hble : N ≤ (win ++ [(k, v)]).length := by
        rw [happlen]
        omega
      rw [lastN_append_of_le N _ _ hble]
      have hlt : N < (win ++ [(k, v)]).length := by
        rw [happlen]
        omega
      rw [if_pos hlt]
      unfold lastN
      have hone : (win ++ [(k, v)]).length - N = 1 := by
        rw [happlen]
        omega
      rw [hone]
    · have hpre0 : pre = [] := by
        rw [hpre]
        have hz : h.length - N = 0 := by omega
        simp [hz]
      have hwlt : win.length < N := by omega
      have hnolt : ¬ N < (win ++ [(k, v)]).length := by
        rw [happlen]
        omega
      rw [if_neg hnolt, hpre0]
      simp only [adelete, List.filter_nil, List.nil_append]
      have hle : (win ++ [(k, v)]).length ≤ N := by
        rw [happlen]
        omega
      rw [lastN_of_le N _ hle]

/-- One operation preserves the cache/history correspondence. -/
theorem cacheStep_refines {K V : Type} [DecidableEq K] (N : Nat) (h : List (K × V))
    (hnd : (h.map Prod.fst).Nodup) (op : CacheOp K V) :
    cacheStep N (lastN N h) op = lastN N (histStep N h op) ∧
      ((histStep N h op).map Prod.fst).Nodup := by
  cases op with
  | put k v =>
      exact ⟨cacheSet_refines N h k v hnd, touchEntry_keys_nodup h k v hnd⟩
  | get k =>
      unfold cacheStep histStep cacheGet
      cases hlook : alookup (lastN N h) k with
      | none => simp [hlook, hnd]
      | some v =>
          simp only [hlook]
          constructor
          · -- the hit branch agrees with cacheSet, hence with the touched history
            have hset := cacheSet_refines N h k v hnd
            unfold cacheSet at hset
            have hksome : (alookup (lastN N h) k).isSome = true := by simp [hlook]
            simp only [hksome, if_true] at hset
            have hk : k ∈ (lastN N h).map Prod.fst := (alookup_isSome _ k).mp hksome
            have hlen : (adelete (lastN N h) k).length + 1 = (lastN N h).length :=
              adelete_length_of_nodup _ k (lastN_keys_nodup N h hnd) hk
            have hwinlen : (lastN N h).length = h.length - (h.length - N) := length_lastN N h
            have hnolt : ¬ N < (adelete (lastN N h) k ++ [(k, v)]).length := by
              simp only [List.length_append, List.length_cons, List.length_nil]
              omega
            rw [if_neg hnolt] at hset
            exact hset
          · exact touchEntry_keys_nodup h k v hnd

/-- Running any operation sequence preserves the correspondence. -/
theorem cacheRun_refines {K V : Type} [DecidableEq K] (N : Nat) (ops : List (CacheOp K V))
    (h : List (K × V)) (hnd : (h.map Prod.fst).Nodup) :
    cacheRun N ops (lastN N h) = lastN N (histRun N ops h) ∧
      ((histRun N ops h).map Prod.fst).Nodup := by
  induction ops generalizing h with
  | nil => exact ⟨rfl, hnd⟩
  | cons op rest ih =>
      have hstep := cacheStep_refines N h hnd op
      unfold cacheRun histRun
      simp only [List.foldl_cons]
      rw [hstep.1]
      exact ih (histStep N h op) hstep.2

/-- C2: for every capacity N and operation sequence, the cache equals the
last-N window of the most-recently-touched history (so with more than N
distinct touched keys it retains exactly the N most recent): get on a present
key returns its stored value and refreshes recency, put inserts/overwrites at
the most-recent end, and on overflow exactly the single least-recently-touched
(oldest) entry is evicted. -/
theorem claim_C2_cache_strict_lru {V : Type} (N : Nat) (ops : List (CacheOp String V)) :
    cacheRun N ops [] = lastN N (histRun N ops []) ∧
    ((histRun N ops []).map Prod.fst).Nodup ∧
    (cacheRun N ops []).length =
      (histRun N ops []).length - ((histRun N ops []).length - N) ∧
    (∀ (c : List (String × V)) (k : String), (cacheGet c k).1 = alookup c k) ∧
    (∀ (c : List (String × V)) (k : String) (v : V),
      alookup c k = some v → (cacheGet c k).2 = adelete c k ++ [(k, v)]) ∧
    (∀ (c : List (String × V)) (k : String) (v : V),
      alookup c k = none → 0 < N → c.length = N →
        cacheSet N c k v = c.drop 1 ++ [(k, v)]) := by
  have hrun := cacheRun_refines N ops ([] : List (String × V)) (by simp)
  have hbase : lastN N ([] : List (String × V)) = [] := by simp [lastN]
  rw [hbase] at hrun
  refine ⟨hrun.1, hrun.2, ?_, ?_, ?_, ?_⟩
  · rw [hrun.1, length_lastN]
  · intro c k
    unfold cacheGet
    cases alookup c k <;> rfl
  · intro c k v hl
    unfold cacheGet
    rw [hl]
  · intro c k v hl hN hlen
    unfold cacheSet
    simp only [hl, Option.isSome_none, Bool.false_eq_true, if_false]
    have hckeys : k ∉ c.map Prod.fst := (alookup_eq_none c k).mp hl
    have hlt : N < (c ++ [(k, v)]).length := by
      simp [hlen]
    rw [if_pos hlt]
    exact drop_append_le c [(k, v)] 1 (by omega)

/-- C2 witness: eviction of the least-recently-used entry on overflow at a
concrete input, via the claim theorem. -/
theorem claim_C2_cache_strict_lru_witness :
    alookup ([("a", 1), ("b", 2)] : List (String × Nat)) "c" = none ∧
    0 < 2 ∧ ([("a", 1), ("b", 2)] : List (String × Nat)).length = 2 ∧
    cacheSet 2 ([("a", 1), ("b", 2)] : List (String × Nat)) "c" 3 =
      [("b", 2), ("c", 3)] := by
  have h := (claim_C2_cache_strict_lru (V := Nat) 2 []).2.2.2.2.2
    [("a", 1), ("b", 2)] "c" 3 (by decide) (by decide) (by decide)
  refine ⟨by decide, by decide, by decide, ?_⟩
  rw [h]
  decide

/-! ## String containment (JS String.prototype.includes)

We model `a.includes(b)` as contiguous-sublist containment of the character
lists, with an executable check and a proved characterization. -/

/-- Does `p` occur as a prefix of `l`? -/
def listStartsWith {α : Type} [DecidableEq α] : List α → List α → Bool
  | _, [] => true
  | [], _ :: _ => false
  | a :: as, b :: bs => if a = b then listStartsWith as bs else false

/-- Does `pat` occur contiguously somewhere inside `l`? -/
def hasSubList {α : Type} [DecidableEq α] : List α → List α → Bool
  | [], pat => pat.isEmpty
  | a :: t, pat => listStartsWith (a :: t) pat || hasSubList t pat

/-- JS `hay.includes(needle)`. -/
def strIncludes (hay needle : String) : Bool := hasSubList hay.data needle.data

theorem listStartsWith_iff {α : Type} [DecidableEq α] (l p : List α) :
    listStartsWith l p = true ↔ ∃ t, l = p ++ t := by
  induction p generalizing l with
  | nil => simp [listStartsWith]
  | cons b bs ih =>
      cases l with
      | nil => simp [listStartsWith]
      | cons a as =>
          constructor
          · intro h
            have hab : a = b := by
              by_contra hne
              simp [listStartsWith, hne] at h
            subst hab
            simp only [listStartsWith, if_pos rfl] at h
            rcases (ih as).mp h with ⟨t, ht⟩
            exact ⟨t, by simp [ht]⟩
          · rintro ⟨t, ht⟩
            simp only [List.cons_append, List.cons.injEq] at ht
            rcases ht with ⟨hab, hat⟩
            subst hab
            simp only [listStartsWith, if_pos rfl]
            exact (ih as).mpr ⟨t, hat⟩

theorem hasSubList_iff {α : Type} [DecidableEq α] (l p : List α) :
    hasSubList l p = true ↔ ∃ u w, l = u ++ p ++ w := by
  induction l with
  | nil =>
      simp only [hasSubList, List.isEmpty_iff]
      constructor
      · intro h
        exact ⟨[], [], by simp [h]⟩
      · rintro ⟨u, w, huw⟩
        have h2 := List.append_eq_nil.mp huw.symm
        have h3 := List.append_eq_nil.mp h2.1
        exact h3.2
  | cons a t ih =>
      simp only [hasSubList, Bool.or_eq_true, listStartsWith_iff, ih]
      constructor
      · rintro (⟨w, hw⟩ | ⟨u, w, huw⟩)
        · exact ⟨[], w, by simp [hw]⟩
        · exact ⟨a :: u, w, by simp [huw]⟩
      · rintro ⟨u, w, huw⟩
        cases u with
        | nil =>
            left
            exact ⟨w, by simpa using huw⟩
        | cons x u =>
            right
            simp only [List.cons_append, List.cons.injEq] at huw
            exact ⟨u, w, huw.2⟩

/-! ## Option matcher (src/main.js lines 1109-1176, `setSelectValue`)

A `<select>`'s options are modelled as a list of raw DOM data (textContent,
value, data-name), in document order.  The matching core returns the index of
the first matching option, mirroring `options.find(...)`. -/

/-- One `<option>` element as read from the DOM. -/
structure RawOption where
  textContent : Option String
  value : String
  dataName : Option String
deriving DecidableEq

/-- The three candidate strings compared by `setSelectValue`:
`(o.textContent || '').trim()`, `o.value || ''`, `(o.getAttribute(..) || '').trim()`. -/
def optionCandidates (o : RawOption) : List String :=
  [jsTrim (o.textContent.getD ""), o.value, jsTrim (o.dataName.getD "")]

/-- The source predicate: some candidate, lowercased, strictly equals the
lowercased target or includes it as a substring. -/
def optionMatches (tv : String) (o : RawOption) : Bool :=
  (optionCandidates o).any fun v => decide (jsToLower v = tv) || strIncludes (jsToLower v) tv

/-- First index satisfying `p` (mirrors `Array.prototype.find`, which returns
the first match in document order). -/
def findFirstIdx {α : Type} (p : α → Bool) : List α → Option Nat
  | [] => none
  | a :: t => if p a then some 0 else (findFirstIdx p t).map (· + 1)

/-- `setSelectValue` matching core from the source: guard
`if (!selectElement || !targetValue) return false`, then find the first option
whose text/value/data-name lowercased equals or includes the lowercased
target.  Returns the index of the selected option, `none` when no match. -/
def setSelectValue (options : List RawOption) (targetValue : String) : Option Nat :=
  if targetValue = "" then none
  else findFirstIdx (fun o => optionMatches (jsToLower targetValue) o) options

theorem findFirstIdx_isSome {α : Type} (p : α → Bool) (l : List α) :
    (findFirstIdx p l).isSome = true ↔ l.any p = true := by
  induction l with
  | nil => simp [findFirstIdx]
  | cons a t ih =>
      by_cases hp : p a
      · simp [findFirstIdx, hp]
      · simp [findFirstIdx, hp, ih]

theorem findFirstIdx_spec {α : Type} (p : α → Bool) (l : List α) (i : Nat)
    (h : findFirstIdx p l = some i) :
    ∃ u x w, l = u ++ x :: w ∧ u.length = i ∧ p x = true ∧ ∀ y ∈ u, p y = false := by
  induction l generalizing i with
  | nil => exact absurd h (by simp [findFirstIdx])
  | cons a t ih =>
      by_cases hp : p a
      · simp only [findFirstIdx, if_pos hp, Option.some.injEq] at h
        exact ⟨[], a, t, by simp, by simp [← h], hp, by simp⟩
      · simp only [findFirstIdx, if_neg hp, Option.map_eq_some'] at h
        rcases h with ⟨j, hj, hi⟩
        rcases ih j hj with ⟨u, x, w, hl, hlen, hx, hall⟩
        refine ⟨a :: u, x, w, by simp [hl], by simp [hlen, ← hi], hx, ?_⟩
        intro y hy
        rcases List.mem_cons.mp hy with hy | hy
        · subst hy
          exact Bool.not_eq_true _ ▸ by simpa using hp
        · exact hall y hy

/-- The claim-side matching relation: the candidate case-insensitively equals
the target, or contains it as a substring (case-insensitively). -/
def ciMatch (c target : String) : Prop :=
  jsToLower c = jsToLower target ∨ hasSubList (jsToLower c).data (jsToLower target).data = true

instance (c target : String) : Decidable (ciMatch c target) := by
  unfold ciMatch
  infer_instance

theorem optionMatches_iff (target : String) (o : RawOption) :
    optionMatches (jsToLower target) o = true ↔ ∃ c ∈ optionCandidates o, ciMatch c target := by
  unfold optionMatches ciMatch strIncludes
  rw [List.any_eq_true]
  constructor
  · rintro ⟨c, hc, hm⟩
    simp only [Bool.or_eq_true, decide_eq_true_eq] at hm
    exact ⟨c, hc, hm⟩
  · rintro ⟨c, hc, hm⟩
    refine ⟨c, hc, ?_⟩
    simp only [Bool.or_eq_true, decide_eq_true_eq]
    exact hm

/-- C3 (amended: the target must be non-empty, see the counterexample): for a
non-empty target string, `setSelectValue` finds an option iff some option's
text, value or data-name case-insensitively equals the target or contains it
as a substring, and the selected option is the first match in document order;
`hasSubList` is genuine contiguous-substring containment. -/
theorem claim_C3_option_matcher (options : List RawOption) (target : String)
    (hne : target ≠ "") :
    ((setSelectValue options target).isSome = true ↔
      ∃ o ∈ options, ∃ c ∈ optionCandidates o, ciMatch c target) ∧
    (∀ i, setSelectValue options target = some i →
      ∃ u x w, options = u ++ x :: w ∧ u.length = i ∧
        (∃ c ∈ optionCandidates x, ciMatch c target) ∧
        ∀ y ∈ u, ¬ ∃ c ∈ optionCandidates y, ciMatch c target) ∧
    (∀ (l pat : List Char), hasSubList l pat = true ↔ ∃ u w, l = u ++ pat ++ w) := by
  refine ⟨?_, ?_, fun l pat => hasSubList_iff l pat⟩
  · unfold setSelectValue
    rw [if_neg hne, findFirstIdx_isSome, List.any_eq_true]
    constructor
    · rintro ⟨o, ho, hm⟩
      exact ⟨o, ho, (optionMatches_iff target o).mp hm⟩
    · rintro ⟨o, ho, hm⟩
      exact ⟨o, ho, (optionMatches_iff target o).mpr hm⟩
  · intro i hi
    unfold setSelectValue at hi
    rw [if_neg hne] at hi
    rcases findFirstIdx_spec _ _ _ hi with ⟨u, x, w, hl, hlen, hx, hall⟩
    refine ⟨u, x, w, hl, hlen, (optionMatches_iff target x).mp hx, ?_⟩
    intro y hy hmy
    have := (optionMatches_iff target y).mpr hmy
    rw [hall y hy] at this
    exact Bool.false_ne_true this

/-- C3 witness: first-match selection at a concrete select, via the claim
theorem ("Gold" matches option 1 by substring; option 0 does not match). -/
theorem claim_C3_option_matcher_witness :
    setSelectValue [⟨some "Silver Tier", "silver", none⟩,
      ⟨some "Gold Tier", "gold", none⟩, ⟨some "Gold", "gold2", none⟩] "Gold" = some 1 ∧
    (∃ c ∈ optionCandidates (⟨some "Gold Tier", "gold", none⟩ : RawOption),
      ciMatch c "Gold") ∧
    ¬ (∃ c ∈ optionCandidates (⟨some "Silver Tier", "silver", none⟩ : RawOption),
      ciMatch c "Gold") := by
  have h := (claim_C3_option_matcher [⟨some "Silver Tier", "silver", none⟩,
    ⟨some "Gold Tier", "gold", none⟩, ⟨some "Gold", "gold2", none⟩] "Gold"
    (by decide)).2.1 1 (by decide)
  rcases h with ⟨u, x, w, hl, hlen, hx, hall⟩
  refine ⟨by decide, ?_, ?_⟩
  · have hx1 : x = ⟨some "Gold Tier", "gold", none⟩ := by
      have hu : u.length = 1 := hlen
      cases u with
      | nil => simp at hu
      | cons a u2 =>
          cases u2 with
          | nil =>
              simp only [List.cons_append, List.nil_append, List.cons.injEq] at hl
              exact hl.2.1.symm
          | cons b u3 => simp at hu
    rw [← hx1]
    exact hx
  · have hmem : (⟨some "Silver Tier", "silver", none⟩ : RawOption) ∈ u := by
      cases u with
      | nil => simp at hlen
      | cons a u2 =>
          cases u2 with
          | nil =>
              simp only [List.cons_append, List.nil_append, List.cons.injEq] at hl
              rw [← hl.1]
              exact List.mem_singleton.mpr rfl
          | cons b u3 => simp at hlen
    exact hall _ hmem

/-- C3 counterexample: at the empty target string the source returns false
(the `!targetValue` guard) even though every option vacuously contains the
empty string as a substring, so the claimed iff fails. -/
theorem claim_C3_counterexample :
    ¬ (((setSelectValue [⟨some "Gold Tier", "gold", none⟩] "").isSome = true) ↔
       ∃ o ∈ [(⟨some "Gold Tier", "gold", none⟩ : RawOption)],
         ∃ c ∈ optionCandidates o, ciMatch c "") := by
  decide

/-! ## Records and the autocomplete adapter (src/main.js lines 1058-1073) -/

/-- A JSON field value as relevant to the adapter: a string, or any non-string
value carrying only its JS truthiness. -/
inductive JsVal
  | str (s : String)
  | nonStr (truthy : Bool)
deriving DecidableEq

/-- An Airtable record: identity token plus named fields. -/
structure AirRecord where
  id : Option String
  fields : List (String × JsVal)
deriving DecidableEq

/-- `r.fields[name]` lookup. -/
def recField (r : AirRecord) (name : String) : Option JsVal :=
  alookup r.fields name

/-- The field key `'Official Establishment Name'`. -/
def officialNameKey : String := "Official Establishment Name"

/-- A parsed query response: `data.records` may be absent. -/
structure QueryResult where
  records : Option (List AirRecord)
deriving DecidableEq

/-- An autocomplete suggestion item `{label, value, data}`. -/
structure ACItem where
  label : String
  value : String
  data : AirRecord
deriving DecidableEq

/-- The adapter's filter: `n && typeof n === 'string' && n.trim()` on the
record's official-name field. -/
def keepRecord (r : AirRecord) : Bool :=
  match recField r officialNameKey with
  | some (.str n) => decide (n ≠ "") && decide (jsTrim n ≠ "")
  | _ => false

/-- The record's official name as a string (defined on kept records). -/
def recordName (r : AirRecord) : String :=
  match recField r officialNameKey with
  | some (.str n) => n
  | _ => ""

/-- The adapter's map: `{ label: name, value: name, data: r }`. -/
def mkSuggestion (r : AirRecord) : ACItem :=
  { label := recordName r, value := recordName r, data := r }

/-- `searchAirtableForAutocomplete` from the source: guard `!data.records`,
filter records with a usable official name, map to suggestion items. -/
def searchAirtableForAutocomplete (data : QueryResult) : List ACItem :=
  match data.records with
  | none => []
  | some rs => (rs.filter keepRecord).map mkSuggestion

theorem keepRecord_iff (r : AirRecord) :
    keepRecord r = true ↔
      ∃ n, recField r officialNameKey = some (.str n) ∧ jsTrim n ≠ "" := by
  unfold keepRecord
  cases hf : recField r officialNameKey with
  | none => simp
  | some v =>
      cases v with
      | str n =>
          simp only [Bool.and_eq_true, decide_eq_true_eq]
          constructor
          · rintro ⟨-, h2⟩
            exact ⟨n, rfl, h2⟩
          · rintro ⟨m, hm, h2⟩
            rw [Option.some.injEq, JsVal.str.injEq] at hm
            subst hm
            refine ⟨?_, h2⟩
            intro he
            subst he
            exact h2 rfl
      | nonStr b => simp

/-- C9: the adapter drops exactly the records whose official-name field is
missing, not a string, or whitespace-only, and maps each remaining record, in
source order, to an item whose label and value both equal that record's name
and whose data payload is the record itself. -/
theorem claim_C9_autocomplete_adapter (rs : List AirRecord) :
    ((searchAirtableForAutocomplete ⟨some rs⟩).map ACItem.data = rs.filter keepRecord) ∧
    (∀ r, keepRecord r = true ↔
      ∃ n, recField r officialNameKey = some (.str n) ∧ jsTrim n ≠ "") ∧
    (∀ it ∈ searchAirtableForAutocomplete ⟨some rs⟩,
      it.label = it.value ∧
      recField it.data officialNameKey = some (.str it.label) ∧ jsTrim it.label ≠ "") ∧
    (∀ r ∈ rs, (keepRecord r = true ↔
      r ∈ (searchAirtableForAutocomplete ⟨some rs⟩).map ACItem.data)) ∧
    ((searchAirtableForAutocomplete ⟨some rs⟩).map ACItem.data).Sublist rs ∧
    (searchAirtableForAutocomplete ⟨none⟩ : List ACItem) = [] := by
  refine ⟨?_, keepRecord_iff, ?_, ?_, ?_, rfl⟩
  · unfold searchAirtableForAutocomplete
    rw [List.map_map]
    have : (ACItem.data ∘ mkSuggestion) = id := by
      funext r
      rfl
    rw [this, List.map_id]
  · intro it hit
    unfold searchAirtableForAutocomplete at hit
    rcases List.mem_map.mp hit with ⟨r, hr, hmk⟩
    have hkeep : keepRecord r = true := List.of_mem_filter hr
    rcases (keepRecord_iff r).mp hkeep with ⟨n, hn, hnws⟩
    have hname : recordName r = n := by
      unfold recordName
      rw [hn]
    subst hmk
    unfold mkSuggestion
    exact ⟨rfl, by simp [hname, hn], by simp [hname, hnws]⟩
  · intro r hr
    unfold searchAirtableForAutocomplete
    rw [List.map_map]
    have hdm : (ACItem.data ∘ mkSuggestion) = id := by
      funext x
      rfl
    rw [hdm, List.map_id]
    constructor
    · intro hk
      exact List.mem_filter.mpr ⟨hr, hk⟩
    · intro hmem
      exact (List.mem_filter.mp hmem).2
  · unfold searchAirtableForAutocomplete
    rw [List.map_map]
    have hdm : (ACItem.data ∘ mkSuggestion) = id := by
      funext x
      rfl
    rw [hdm, List.map_id]
    exact List.filter_sublist rs

/-- C9 witness: at a concrete record list (one good record, one record with a
non-string name, one with a whitespace-only name, one with no name field) the
adapter keeps exactly the good record, via the claim theorem. -/
theorem claim_C9_autocomplete_adapter_witness :
    (searchAirtableForAutocomplete
        ⟨some [⟨some "r1", [(officialNameKey, .str "Aman Tokyo")]⟩,
               ⟨some "r2", [(officialNameKey, .nonStr true)]⟩,
               ⟨some "r3", [(officialNameKey, .str "   ")]⟩,
               ⟨some "r4", []⟩]⟩).map ACItem.data =
      [⟨some "r1", [(officialNameKey, .str "Aman Tokyo")]⟩] ∧
    (keepRecord ⟨some "r3", [(officialNameKey, .str "   ")]⟩ = true ↔
      ∃ n, recField ⟨some "r3", [(officialNameKey, .str "   ")]⟩ officialNameKey =
        some (.str n) ∧ jsTrim n ≠ "") := by
  constructor
  · rw [(claim_C9_autocomplete_adapter
      [⟨some "r1", [(officialNameKey, .str "Aman Tokyo")]⟩,
       ⟨some "r2", [(officialNameKey, .nonStr true)]⟩,
       ⟨some "r3", [(officialNameKey, .str "   ")]⟩,
       ⟨some "r4", []⟩]).1]
    decide
  · exact (claim_C9_autocomplete_adapter []).2.1 _

/-! ## Field registry keys and form state (src/main.js lines 720-870)

The embedding models the standard bound form: the three text fields carry an
input element, the four dropdowns a select element, and every binding has a
wrapper.  Static DOM content (option lists, label texts) lives in `FormEnv`;
everything the handlers mutate lives in `FormState`. -/

/-- The semantic field keys of `FIELD_LABEL_TO_KEY`. -/
inductive FieldKey
  | redemptionCode
  | officialEstablishmentName
  | customEstablishmentName
  | establishmentType
  | partnerStatus
  | awardLevel
  | dutiesAndTaxes
deriving DecidableEq

/-- All bound fields, i.e. `Object.entries(fields)`. -/
def allFieldKeys : List FieldKey :=
  [.redemptionCode, .officialEstablishmentName, .customEstablishmentName,
   .establishmentType, .partnerStatus, .awardLevel, .dutiesAndTaxes]

/-- Static environment: DOM content the handlers read but never change.
`labels` holds each field's label text as already stripped of adornments (the
source removes a `(required)` marker and a trailing colon before using it in
the mismatch message). -/
structure FormEnv where
  options : FieldKey → List RawOption
  labels : FieldKey → String
  hasForm : Bool
  hasAutocomplete : Bool

/-- Mutable controller and DOM state. -/
@[ext]
structure FormState where
  values : FieldKey → String
  lastId : Option String
  lastName : Option String
  submitEnabled : Bool
  mode : String
  hidden : FieldKey → Bool
  locked : FieldKey → Bool
  mismatchMsg : FieldKey → Option String
  mismatchAlertDispatched : Bool
  helpTextCode : Bool
  noResultsName : Option String
  noResultsCode : Option String
  errorName : Option String
  errorCode : Option String

/-- `resetField`: clear the field's primary control. -/
def resetField (s : FormState) (k : FieldKey) : FormState :=
  { s with values := fun q => if q = k then "" else s.values q }

/-- `resetFields(exclusions)`: reset every bound field not excluded. -/
def resetFields (s : FormState) (excl : List FieldKey) : FormState :=
  allFieldKeys.foldl (fun st k => if k ∈ excl then st else resetField st k) s

/-- `updateFormSubmitState`: derive submit enablement from
`lastSelectedEstablishment.id`; a no-op when no form element was found. -/
def updateFormSubmitState (env : FormEnv) (s : FormState) : FormState :=
  if env.hasForm then { s with submitEnabled := jsTruthyOpt s.lastId } else s

/-- `resetDependentFields(exclusions)`: bulk reset, force-clear the custom
name unless excluded, forget the last valid selection, refresh submit gating. -/
def resetDependentFields (env : FormEnv) (s : FormState) (excl : List FieldKey) :
    FormState :=
  let s1 := resetFields s excl
  let s2 := if FieldKey.customEstablishmentName ∈ excl then s1
    else { s1 with values := fun q =>
            if q = .customEstablishmentName then "" else s1.values q }
  let s3 := { s2 with lastId := none, lastName := none }
  updateFormSubmitState env s3

/-- The current revision's mode names. -/
def codeModeName : String := "Partner Early-Access Code Lookup"

/-- See `codeModeName`. -/
def nameModeName : String := "Establishment Name Lookup"

/-- `MODES[mode]`: (hide list, prevent list); absent for unknown mode names. -/
def MODES (m : String) : Option (List FieldKey × List FieldKey) :=
  if m = codeModeName then
    some ([], [.establishmentType, .partnerStatus, .awardLevel, .dutiesAndTaxes,
      .officialEstablishmentName])
  else if m = nameModeName then
    some ([.redemptionCode], [.establishmentType, .partnerStatus, .awardLevel,
      .dutiesAndTaxes])
  else none

/-- `MODES[mode] || { hide: [], prevent: [] }`. -/
def modeConfig (m : String) : List FieldKey × List FieldKey := (MODES m).getD ([], [])

/-- `hideElements`: set `display:none` on each listed field's wrapper. -/
def hideElements (s : FormState) (l : List FieldKey) : FormState :=
  l.foldl (fun st k => { st with hidden := fun q => if q = k then true else st.hidden q }) s

/-- `preventInteraction`: apply `preventEdit` to each listed field. -/
def preventInteraction (s : FormState) (l : List FieldKey) : FormState :=
  l.foldl (fun st k => { st with locked := fun q => if q = k then true else st.locked q }) s

/-- `setMode`: record the mode, hide its hidden set, lock its prevent set. -/
def setMode (s : FormState) (m : String) : FormState :=
  let s1 := { s with mode := m }
  let s2 := hideElements s1 (modeConfig m).1
  preventInteraction s2 (modeConfig m).2

/-- The mode-dependent lock list applied by `clearAndResetForm`. -/
def clearPreventList (m : String) : List FieldKey :=
  if m = codeModeName then
    [.establishmentType, .partnerStatus, .awardLevel, .dutiesAndTaxes,
      .officialEstablishmentName]
  else [.establishmentType, .partnerStatus, .awardLevel, .dutiesAndTaxes]

/-- `clearAndResetForm`: reset all fields, clear all inline messages, re-apply
the current mode's locks, and (in name mode, with the autocomplete present)
clear the official-name input. -/
def clearAndResetForm (env : FormEnv) (s : FormState) : FormState :=
  let s1 := resetFields s []
  let s2 := { s1 with mismatchMsg := fun _ => none, noResultsName := none,
                      noResultsCode := none, errorName := none, errorCode := none }
  let s3 := preventInteraction s2 (clearPreventList s.mode)
  if s.mode = codeModeName then s3
  else if env.hasAutocomplete then
    { s3 with values := fun q =>
        if q = .officialEstablishmentName then "" else s3.values q }
  else s3

/-- Inline mismatch message (source line 1155). -/
def mismatchInlineText (establishmentValue labelText : String) : String :=
  "This product does not meet your establishment details. This product does not have \"" ++
    establishmentValue ++ "\" for the option \"" ++ labelText ++ "\"."

/-- The blocking alert template (source line 1160; the misspelling is the
source's). -/
def mismatchAlertTemplate : String :=
  "There is no product option for your \x7bfeild type\x7d of \x7bestablishment value\x7d. Please change the establishment you are shopping for or chose a product that supports your \x7bfeild type\x7d of \x7bestablishment value\x7d."

/-- The populated blocking alert message. -/
def mismatchAlertText (labelText establishmentValue : String) : String :=
  (mismatchAlertTemplate.replace "\x7bfeild type\x7d" labelText).replace
    "\x7bestablishment value\x7d" establishmentValue

/-- Externally observable actions emitted by the handlers. -/
inductive Action
  | netCall (field : String) (q : String)
  | alertMismatch (msg : String)
  | renderMismatch (k : FieldKey) (msg : String)
  | callbackItems (items : List ACItem)
deriving DecidableEq

/-- Full `setSelectValue` effect on the form state: on a match, set the
select's value and clear its mismatch hint; on a mismatch, write the inline
hint, raise at most one blocking alert (gated by the cooldown flag), then
clear and reset the whole form. -/
def setSelectValueM (env : FormEnv) (s : FormState) (k : FieldKey) (targetValue : String) :
    FormState × List Action × Bool :=
  if targetValue = "" then (s, [], false)
  else
    match setSelectValue (env.options k) targetValue with
    | some i =>
        let v := ((env.options k).getD i ⟨none, "", none⟩).value
        ({ s with values := fun q => if q = k then v else s.values q,
                  mismatchMsg := fun q => if q = k then none else s.mismatchMsg q },
         [], true)
    | none =>
        let labelText := env.labels k
        let msg := mismatchInlineText targetValue labelText
        let s1 := { s with mismatchMsg := fun q =>
                      if q = k then some msg else s.mismatchMsg q }
        let s2 := if s1.mismatchAlertDispatched then s1
          else { s1 with mismatchAlertDispatched := true }
        let acts := if s1.mismatchAlertDispatched then [Action.renderMismatch k msg]
          else [Action.renderMismatch k msg,
                Action.alertMismatch (mismatchAlertText labelText targetValue)]
        (clearAndResetForm env s2, acts, false)

/-- `recFields[name]` restricted to truthy string values — the only shape the
population handlers are designed for (a truthy non-string would make the
original code throw inside `setSelectValue.toLowerCase`). -/
def recTruthyStr (r : AirRecord) (name : String) : Option String :=
  match recField r name with
  | some (.str n) => if n = "" then none else some n
  | _ => none

/-- `recFields[name] || ''` at the `updateSelectElements` call sites. -/
def recStrOrEmpty (r : AirRecord) (name : String) : String :=
  match recTruthyStr r name with
  | some n => n
  | none => ""

/-- The dropdown mapping, in the source object's insertion order. -/
def dropdownMappings : List (String × FieldKey) :=
  [("Award Level", .awardLevel), ("Establishment Type", .establishmentType),
   ("Partner Status", .partnerStatus), ("Duties & Taxes", .dutiesAndTaxes)]

/-- One dropdown application inside `handleRedemptionCodeSelection`:
`if (recFields[fieldName] && fields[configName]?.select) setSelectValue(..)`. -/
def applyDropdown (env : FormEnv) (r : AirRecord) (acc : FormState × List Action)
    (p : String × FieldKey) : FormState × List Action :=
  match recTruthyStr r p.1 with
  | some v =>
      let res := setSelectValueM env acc.1 p.2 v
      (res.1, acc.2 ++ res.2.1)
  | none => acc

/-- `handleRedemptionCodeSelection(record)`: write the official name into both
name fields, set each select carrying a truthy record value, then
`updateSelectElements(name || '', status || '', award || '', duties || '')`. -/
def handleRedemptionCodeSelection (env : FormEnv) (s : FormState) (r : AirRecord) :
    FormState × List Action :=
  let s1 := match recTruthyStr r officialNameKey with
    | some n =>
        { s with values := fun q =>
            if q = .officialEstablishmentName ∨ q = .customEstablishmentName then n
            else s.values q }
    | none => s
  let s2 := dropdownMappings.foldl (applyDropdown env r) (s1, [])
  let name0 := recStrOrEmpty r officialNameKey
  let s3 := { s2.1 with values := fun q =>
      if q = .customEstablishmentName then name0 else s2.1.values q }
  let r1 := setSelectValueM env s3 .partnerStatus (recStrOrEmpty r "Partner Status")
  let r2 := setSelectValueM env r1.1 .awardLevel (recStrOrEmpty r "Award Level")
  let r3 := setSelectValueM env r2.1 .dutiesAndTaxes (recStrOrEmpty r "Duties & Taxes")
  (r3.1, s2.2 ++ r1.2.1 ++ r2.2.1 ++ r3.2.1)

/-- The debounced invalidation listener on the official-name input. -/
def nameEditHandler (env : FormEnv) (s : FormState) : FormState :=
  let current := jsTrim (s.values .officialEstablishmentName)
  let s1 := if jsTruthyOpt s.lastName && decide (some current ≠ s.lastName) then
      resetDependentFields env s [.officialEstablishmentName, .redemptionCode]
    else s
  if current = "" then
    resetDependentFields env s1 [.officialEstablishmentName, .redemptionCode]
  else s1

/-- The blur invalidation listener on the official-name input. -/
def nameBlurHandler (env : FormEnv) (s : FormState) : FormState :=
  let current := jsTrim (s.values .officialEstablishmentName)
  if decide (current = "") ||
      (jsTruthyOpt s.lastName && decide (some current ≠ s.lastName)) then
    resetDependentFields env s [.officialEstablishmentName, .redemptionCode]
  else s

/-- `onSelectItem`: clear stale messages, populate from the picked record,
record the last valid selection, refresh submit gating. -/
def onSelectItem (env : FormEnv) (s : FormState) (item : ACItem) : FormState × List Action :=
  let s0 := { s with noResultsName := none, errorName := none }
  let res := handleRedemptionCodeSelection env s0 item.data
  let s1 := res.1
  let newName := match recTruthyStr item.data officialNameKey with
    | some n => some n
    | none => strOrNone (s1.values .officialEstablishmentName)
  let s2 := { s1 with lastId := jsOrNone item.data.id, lastName := newName }
  (updateFormSubmitState env s2, res.2)

/-- The generic fetch-failure inline message (the non-offline branch; the
offline variant differs only in wording). -/
def fetchErrorMsg : String := "Something went wrong fetching results. Please try again."

/-- The catch branch of the code-lookup handler for non-abort errors. -/
def codeErrorApply (env : FormEnv) (s : FormState) : FormState :=
  let s1 := { s with noResultsCode := none, errorCode := some fetchErrorMsg }
  resetDependentFields env s1 [.redemptionCode, .officialEstablishmentName]

/-- Processing a successful code-lookup response: a found record populates the
form and records the selection; zero records show the no-results message and
clear dependents; a missing `records` field would make the original code throw
reading `.length`, landing in the catch branch. -/
def codeSuccessApply (env : FormEnv) (s : FormState) (code : String) (data : QueryResult) :
    FormState × List Action :=
  match data.records with
  | none => (codeErrorApply env s, [])
  | some [] =>
      let s1 := { s with noResultsCode := some code }
      (resetDependentFields env s1 [.redemptionCode, .officialEstablishmentName], [])
  | some (r :: _) =>
      let s1 := { s with noResultsCode := none, errorCode := none }
      let res := handleRedemptionCodeSelection env s1 r
      let s2 := res.1
      let newName := match recTruthyStr r officialNameKey with
        | some n => some n
        | none => strOrNone (s2.values .officialEstablishmentName)
      let s3 := { s2 with lastId := jsOrNone r.id, lastName := newName }
      (updateFormSubmitState env s3, res.2)

/-- The name-channel success continuation: spinner and error cleared,
no-results message maintained, suggestions delivered to the widget callback. -/
def nameSuccess (s : FormState) (q : String) (data : QueryResult) :
    FormState × List Action :=
  let results := searchAirtableForAutocomplete data
  let s1 := { s with errorName := none }
  let s2 := if results.isEmpty then { s1 with noResultsName := some q }
    else { s1 with noResultsName := none }
  (s2, [Action.callbackItems results])

/-- Module initialization: null selection, the initial mode
(`currentMode = 'Partner Early-Access Code Lookup'`) applied, submit gating
refreshed once the form element is found. -/
def initFormState (env : FormEnv) (s0 : FormState) : FormState :=
  let s1 := { s0 with lastId := none, lastName := none,
                      mismatchAlertDispatched := false }
  let s2 := setMode s1 codeModeName
  updateFormSubmitState env s2

/-! ## Query gateway and cancellation channels (src/main.js lines 727-729,
855-1056)

Asynchronous behaviour is modelled as a labelled transition system.  Each
debounced handler invocation is one event, run synchronously to its first
suspension point; each pending fetch completes through an explicit completion
event.  An `AbortController.abort()` on a pending fetch makes its promise
reject with `AbortError`, which both handlers swallow. -/

/-- The name-channel query field. -/
def nameFieldName : String := "Official Establishment Name"

/-- The code-channel query field (the Airtable column kept its legacy name). -/
def codeFieldName : String := "Redemption Code"

/-- `queryAirtableContains` cache key: `field::cleanQuery.toLowerCase()`. -/
def cacheKeyFor (field q : String) : String := field ++ "::" ++ jsToLower (jsTrim q)

/-- Full controller state: form + cache + the two cancellation channels. -/
structure GState where
  form : FormState
  cache : List (String × QueryResult)
  nextId : Nat
  nameCur : Option Nat
  codeCur : Option Nat
  inflight : List (Nat × String × String)
  aborted : List Nat
  completed : List Nat

/-- External events: debounced inputs per channel, fetch completions
(`res = none` is a transport failure), an autocomplete pick, the invalidation
listeners, the public reset, a mode switch, the alert-cooldown expiry. -/
inductive GEvent
  | nameInput (q : String)
  | codeInput (v : String)
  | nameComplete (id : Nat) (res : Option QueryResult)
  | codeComplete (id : Nat) (res : Option QueryResult)
  | selectItem (item : ACItem)
  | nameEdit
  | nameBlur
  | resetForm
  | setModeEvent (m : String)
  | cooldown

/-- The debounced autocomplete `source` callback (name channel) to its first
suspension point: messages cleared, short queries return immediately without
touching the channel, otherwise the previous controller is aborted before the
new request starts; an empty trimmed query or a cache hit resolves
synchronously without a network call. -/
def stepNameInput (s : GState) (q : String) : GState × List Action :=
  let f0 := { s.form with noResultsName := none, errorName := none }
  if q.length < 2 then
    ({ s with form := f0 }, [Action.callbackItems []])
  else
    let ab := match s.nameCur with
      | some j => j :: s.aborted
      | none => s.aborted
    let id := s.nextId
    let cleanQuery := jsTrim q
    if cleanQuery = "" then
      let res := nameSuccess f0 q ⟨some []⟩
      ({ s with form := res.1, aborted := ab, nameCur := some id, nextId := id + 1,
                completed := id :: s.completed }, res.2)
    else
      match cacheGet s.cache (cacheKeyFor nameFieldName q) with
      | (some data, cache2) =>
          let res := nameSuccess f0 q data
          ({ s with form := res.1, cache := cache2, aborted := ab, nameCur := some id,
                    nextId := id + 1, completed := id :: s.completed }, res.2)
      | (none, _) =>
          ({ s with form := f0, aborted := ab, nameCur := some id, nextId := id + 1,
                    inflight := (id, nameFieldName, q) :: s.inflight },
           [Action.netCall nameFieldName cleanQuery])

/-- The debounced code-lookup `handleInput` to its first suspension point:
fields and messages reset, any in-flight code lookup aborted, then length
gating; only an exactly-8-character trimmed code starts a query, and a cache
hit resolves synchronously without a network call. -/
def stepCodeInput (env : FormEnv) (s : GState) (v : String) : GState × List Action :=
  let code := jsTrim v
  let f0 := resetFields s.form [.redemptionCode]
  let f1 := { f0 with noResultsCode := none, errorCode := none, helpTextCode := false }
  let ab := match s.codeCur with
    | some j => j :: s.aborted
    | none => s.aborted
  if code.length ≠ 8 then
    let f2 := { f1 with helpTextCode := true }
    let f3 := resetDependentFields env f2 [.redemptionCode, .officialEstablishmentName]
    ({ s with form := f3, aborted := ab }, [])
  else
    let id := s.nextId
    match cacheGet s.cache (cacheKeyFor codeFieldName code) with
    | (some data, cache2) =>
        let res := codeSuccessApply env f1 code data
        ({ s with form := res.1, cache := cache2, aborted := ab, codeCur := some id,
                  nextId := id + 1, completed := id :: s.completed }, res.2)
    | (none, _) =>
        ({ s with form := f1, aborted := ab, codeCur := some id, nextId := id + 1,
                  inflight := (id, codeFieldName, code) :: s.inflight },
         [Action.netCall codeFieldName code])

/-- Deliver the outcome of a pending name-channel fetch.  An aborted
controller rejects with AbortError, which the handler swallows (spinner
removal only); otherwise failure shows the inline error and success caches
and delivers suggestions. -/
def stepNameComplete (s : GState) (id : Nat) (res : Option QueryResult) :
    GState × List Action :=
  match s.inflight.find? (fun t => decide (t.1 = id)) with
  | none => (s, [])
  | some entry =>
      if entry.2.1 ≠ nameFieldName then (s, [])
      else
        let s0 := { s with inflight := s.inflight.filter (fun t => decide (t.1 ≠ id)),
                           completed := id :: s.completed }
        if id ∈ s.aborted then (s0, [])
        else
          match res with
          | none =>
              let f2 := { s0.form with
                noResultsName := none
                errorName := some fetchErrorMsg }
              ({ s0 with form := f2 }, [Action.callbackItems []])
          | some data =>
              let cache2 := cacheSet MAX_CACHE s.cache
                (cacheKeyFor nameFieldName entry.2.2) data
              let res2 := nameSuccess s0.form entry.2.2 data
              ({ s0 with cache := cache2, form := res2.1 }, res2.2)

/-- Deliver the outcome of a pending code-channel fetch; as above, but failure
clears dependent fields and success populates the form. -/
def stepCodeComplete (env : FormEnv) (s : GState) (id : Nat) (res : Option QueryResult) :
    GState × List Action :=
  match s.inflight.find? (fun t => decide (t.1 = id)) with
  | none => (s, [])
  | some entry =>
      if entry.2.1 ≠ codeFieldName then (s, [])
      else
        let s0 := { s with inflight := s.inflight.filter (fun t => decide (t.1 ≠ id)),
                           completed := id :: s.completed }
        if id ∈ s.aborted then (s0, [])
        else
          match res with
          | none => ({ s0 with form := codeErrorApply env s0.form }, [])
          | some data =>
              let cache2 := cacheSet MAX_CACHE s.cache
                (cacheKeyFor codeFieldName entry.2.2) data
              let res2 := codeSuccessApply env s0.form entry.2.2 data
              ({ s0 with cache := cache2, form := res2.1 }, res2.2)

/-- The controller's labelled transition function. -/
def stepG (env : FormEnv) (s : GState) : GEvent → GState × List Action
  | .nameInput q => stepNameInput s q
  | .codeInput v => stepCodeInput env s v
  | .nameComplete id res => stepNameComplete s id res
  | .codeComplete id res => stepCodeComplete env s id res
  | .selectItem item =>
      let res := onSelectItem env s.form item
      ({ s with form := res.1 }, res.2)
  | .nameEdit => ({ s with form := nameEditHandler env s.form }, [])
  | .nameBlur => ({ s with form := nameBlurHandler env s.form }, [])
  | .resetForm => ({ s with form := clearAndResetForm env s.form }, [])
  | .setModeEvent m => ({ s with form := setMode s.form m }, [])
  | .cooldown =>
      ({ s with form := { s.form with mismatchAlertDispatched := false } }, [])

/-- The controller state right after DOM-ready initialization. -/
def initG (env : FormEnv) (fs0 : FormState) : GState :=
  { form := initFormState env fs0, cache := [], nextId := 0, nameCur := none,
    codeCur := none, inflight := [], aborted := [], completed := [] }

/-- Run a sequence of events (dropping the emitted actions). -/
def runG (env : FormEnv) (evs : List GEvent) (g : GState) : GState :=
  evs.foldl (fun st e => (stepG env st e).1) g

/-- The state reached from initialization by an event sequence. -/
def reachG (env : FormEnv) (fs0 : FormState) (evs : List GEvent) : GState :=
  runG env evs (initG env fs0)

/-! ### Characterizations of the bulk DOM operations -/

theorem mem_allFieldKeys (k : FieldKey) : k ∈ allFieldKeys := by
  cases k <;> simp [allFieldKeys]

theorem foldlReset_eq (excl : List FieldKey) (l : List FieldKey) (s : FormState) :
    l.foldl (fun st k => if k ∈ excl then st else resetField st k) s =
      { s with values := fun q => if q ∈ l ∧ q ∉ excl then "" else s.values q } := by
  induction l generalizing s with
  | nil =>
      simp only [List.foldl_nil]
      apply FormState.ext <;> try rfl
      all_goals
        funext q
        simp
  | cons a t ih =>
      simp only [List.foldl_cons]
      rw [ih]
      by_cases ha : a ∈ excl
      · rw [if_pos ha]
        apply FormState.ext <;> try rfl
        all_goals
          funext q
          by_cases hq : q = a
          · subst hq
            simp [ha]
          · simp [List.mem_cons, hq]
      · rw [if_neg ha]
        unfold resetField
        apply FormState.ext <;> try rfl
        all_goals
          funext q
          by_cases hq : q = a
          · subst hq
            by_cases hat : q ∈ t <;> simp [hat, ha]
          · simp [List.mem_cons, hq]

theorem resetFields_eq (s : FormState) (excl : List FieldKey) :
    resetFields s excl =
      { s with values := fun q => if q ∈ excl then s.values q else "" } := by
  unfold resetFields
  rw [foldlReset_eq]
  apply FormState.ext <;> try rfl
  all_goals
    funext q
    have hq := mem_allFieldKeys q
    by_cases he : q ∈ excl <;> simp [hq, he]

theorem hideElements_eq (s : FormState) (l : List FieldKey) :
    hideElements s l =
      { s with hidden := fun q => if q ∈ l then true else s.hidden q } := by
  induction l generalizing s with
  | nil =>
      unfold hideElements
      simp only [List.foldl_nil]
      apply FormState.ext <;> try rfl
      all_goals
        funext q
        simp
  | cons a t ih =>
      unfold hideElements at ih ⊢
      simp only [List.foldl_cons]
      rw [ih]
      apply FormState.ext <;> try rfl
      all_goals
        funext q
        by_cases hq : q = a
        · subst hq
          simp
        · simp [List.mem_cons, hq]

theorem preventInteraction_eq (s : FormState) (l : List FieldKey) :
    preventInteraction s l =
      { s with locked := fun q => if q ∈ l then true else s.locked q } := by
  induction l generalizing s with
  | nil =>
      unfold preventInteraction
      simp only [List.foldl_nil]
      apply FormState.ext <;> try rfl
      all_goals
        funext q
        simp
  | cons a t ih =>
      unfold preventInteraction at ih ⊢
      simp only [List.foldl_cons]
      rw [ih]
      apply FormState.ext <;> try rfl
      all_goals
        funext q
        by_cases hq : q = a
        · subst hq
          simp
        · simp [List.mem_cons, hq]

theorem setMode_eq (s : FormState) (m : String) :
    setMode s m = { s with
      mode := m
      hidden := fun q => if q ∈ (modeConfig m).1 then true else s.hidden q
      locked := fun q => if q ∈ (modeConfig m).2 then true else s.locked q } := by
  simp only [setMode, hideElements_eq, preventInteraction_eq]

theorem clearAndResetForm_eq (env : FormEnv) (s : FormState) :
    clearAndResetForm env s = { s with
      values := fun _ => ""
      mismatchMsg := fun _ => none
      locked := fun q => if q ∈ clearPreventList s.mode then true else s.locked q
      noResultsName := none
      noResultsCode := none
      errorName := none
      errorCode := none } := by
  simp only [clearAndResetForm, resetFields_eq, preventInteraction_eq]
  by_cases hm : s.mode = codeModeName
  · rw [if_pos hm]
    apply FormState.ext <;> try rfl
    all_goals
      funext q
      simp
  · rw [if_neg hm]
    by_cases hac : env.hasAutocomplete = true
    · rw [if_pos hac]
      apply FormState.ext <;> try rfl
      all_goals
        funext q
        simp
    · rw [if_neg hac]
      apply FormState.ext <;> try rfl
      all_goals
        funext q
        simp

theorem resetDependentFields_eq (env : FormEnv) (s : FormState) (excl : List FieldKey) :
    resetDependentFields env s excl =
      if env.hasForm then
        { s with
          values := fun q => if q ∈ excl then s.values q else ""
          lastId := none
          lastName := none
          submitEnabled := false }
      else
        { s with
          values := fun q => if q ∈ excl then s.values q else ""
          lastId := none
          lastName := none } := by
  unfold resetDependentFields updateFormSubmitState
  simp only [resetFields_eq]
  by_cases hc : FieldKey.customEstablishmentName ∈ excl
  · rw [if_pos hc]
    by_cases hf : env.hasForm = true
    · rw [if_pos hf, if_pos hf]
      apply FormState.ext <;> rfl
    · rw [if_neg hf, if_neg hf]
  · rw [if_neg hc]
    by_cases hf : env.hasForm = true
    · rw [if_pos hf, if_pos hf]
      apply FormState.ext <;> try rfl
      funext q
      by_cases hq : q = FieldKey.customEstablishmentName
      · subst hq
        simp [hc]
      · simp [hq]
    · rw [if_neg hf, if_neg hf]
      apply FormState.ext <;> try rfl
      funext q
      by_cases hq : q = FieldKey.customEstablishmentName
      · subst hq
        simp [hc]
      · simp [hq]

/-! ### Frame lemmas: what each operation leaves untouched -/

theorem jsOrNone_ne_some_empty (x : Option String) : jsOrNone x ≠ some "" := by
  cases x with
  | none => simp [jsOrNone]
  | some s =>
      unfold jsOrNone
      by_cases h : s = "" <;> simp [h]

theorem jsTruthyOpt_eq_isSome (x : Option String) (h : x ≠ some "") :
    jsTruthyOpt x = x.isSome := by
  cases x with
  | none => rfl
  | some s =>
      have hs : s ≠ "" := fun e => h (by rw [e])
      simp [jsTruthyOpt, hs]

@[simp]
theorem updateFormSubmitState_lastId (env : FormEnv) (s : FormState) :
    (updateFormSubmitState env s).lastId = s.lastId := by
  unfold updateFormSubmitState
  split <;> rfl

@[simp]
theorem updateFormSubmitState_lastName (env : FormEnv) (s : FormState) :
    (updateFormSubmitState env s).lastName = s.lastName := by
  unfold updateFormSubmitState
  split <;> rfl

theorem updateFormSubmitState_enabled (env : FormEnv) (s : FormState)
    (hf : env.hasForm = true) :
    (updateFormSubmitState env s).submitEnabled = jsTruthyOpt s.lastId := by
  unfold updateFormSubmitState
  rw [if_pos hf]

@[simp]
theorem clearAndResetForm_lastId (env : FormEnv) (s : FormState) :
    (clearAndResetForm env s).lastId = s.lastId := by
  rw [clearAndResetForm_eq]

@[simp]
theorem clearAndResetForm_lastName (env : FormEnv) (s : FormState) :
    (clearAndResetForm env s).lastName = s.lastName := by
  rw [clearAndResetForm_eq]

@[simp]
theorem clearAndResetForm_enabled (env : FormEnv) (s : FormState) :
    (clearAndResetForm env s).submitEnabled = s.submitEnabled := by
  rw [clearAndResetForm_eq]

@[simp]
theorem clearAndResetForm_mode (env : FormEnv) (s : FormState) :
    (clearAndResetForm env s).mode = s.mode := by
  rw [clearAndResetForm_eq]

@[simp]
theorem clearAndResetForm_flag (env : FormEnv) (s : FormState) :
    (clearAndResetForm env s).mismatchAlertDispatched = s.mismatchAlertDispatched := by
  rw [clearAndResetForm_eq]

@[simp]
theorem clearAndResetForm_values (env : FormEnv) (s : FormState) (q : FieldKey) :
    (clearAndResetForm env s).values q = "" := by
  rw [clearAndResetForm_eq]

@[simp]
theorem clearAndResetForm_mismatchMsg (env : FormEnv) (s : FormState) (q : FieldKey) :
    (clearAndResetForm env s).mismatchMsg q = none := by
  rw [clearAndResetForm_eq]

theorem clearAndResetForm_locked (env : FormEnv) (s : FormState) (q : FieldKey) :
    (clearAndResetForm env s).locked q =
      (if q ∈ clearPreventList s.mode then true else s.locked q) := by
  rw [clearAndResetForm_eq]

@[simp]
theorem setSelectValueM_lastId (env : FormEnv) (s : FormState) (k : FieldKey) (t : String) :
    (setSelectValueM env s k t).1.lastId = s.lastId := by
  simp only [setSelectValueM]
  split
  · rfl
  · split
    · rfl
    · rw [clearAndResetForm_lastId]
      split <;> rfl

@[simp]
theorem setSelectValueM_lastName (env : FormEnv) (s : FormState) (k : FieldKey) (t : String) :
    (setSelectValueM env s k t).1.lastName = s.lastName := by
  simp only [setSelectValueM]
  split
  · rfl
  · split
    · rfl
    · rw [clearAndResetForm_lastName]
      split <;> rfl

@[simp]
theorem setSelectValueM_enabled (env : FormEnv) (s : FormState) (k : FieldKey) (t : String) :
    (setSelectValueM env s k t).1.submitEnabled = s.submitEnabled := by
  simp only [setSelectValueM]
  split
  · rfl
  · split
    · rfl
    · rw [clearAndResetForm_enabled]
      split <;> rfl

@[simp]
theorem setSelectValueM_mode (env : FormEnv) (s : FormState) (k : FieldKey) (t : String) :
    (setSelectValueM env s k t).1.mode = s.mode := by
  simp only [setSelectValueM]
  split
  · rfl
  · split
    · rfl
    · rw [clearAndResetForm_mode]
      split <;> rfl

@[simp]
theorem applyDropdown_lastId (env : FormEnv) (r : AirRecord) (acc : FormState × List Action)
    (p : String × FieldKey) : (applyDropdown env r acc p).1.lastId = acc.1.lastId := by
  simp only [applyDropdown]
  split
  · simp
  · rfl

@[simp]
theorem applyDropdown_lastName (env : FormEnv) (r : AirRecord) (acc : FormState × List Action)
    (p : String × FieldKey) : (applyDropdown env r acc p).1.lastName = acc.1.lastName := by
  simp only [applyDropdown]
  split
  · simp
  · rfl

@[simp]
theorem applyDropdown_enabled (env : FormEnv) (r : AirRecord) (acc : FormState × List Action)
    (p : String × FieldKey) :
    (applyDropdown env r acc p).1.submitEnabled = acc.1.submitEnabled := by
  simp only [applyDropdown]
  split
  · simp
  · rfl

@[simp]
theorem applyDropdown_mode (env : FormEnv) (r : AirRecord) (acc : FormState × List Action)
    (p : String × FieldKey) : (applyDropdown env r acc p).1.mode = acc.1.mode := by
  simp only [applyDropdown]
  split
  · simp
  · rfl

@[simp]
theorem foldl_applyDropdown_lastId (env : FormEnv) (r : AirRecord)
    (l : List (String × FieldKey)) (acc : FormState × List Action) :
    ((l.foldl (applyDropdown env r) acc).1).lastId = acc.1.lastId := by
  induction l generalizing acc with
  | nil => rfl
  | cons a t ih => simp [List.foldl_cons, ih]

@[simp]
theorem foldl_applyDropdown_lastName (env : FormEnv) (r : AirRecord)
    (l : List (String × FieldKey)) (acc : FormState × List Action) :
    ((l.foldl (applyDropdown env r) acc).1).lastName = acc.1.lastName := by
  induction l generalizing acc with
  | nil => rfl
  | cons a t ih => simp [List.foldl_cons, ih]

@[simp]
theorem foldl_applyDropdown_enabled (env : FormEnv) (r : AirRecord)
    (l : List (String × FieldKey)) (acc : FormState × List Action) :
    ((l.foldl (applyDropdown env r) acc).1).submitEnabled = acc.1.submitEnabled := by
  induction l generalizing acc with
  | nil => rfl
  | cons a t ih => simp [List.foldl_cons, ih]

@[simp]
theorem foldl_applyDropdown_mode (env : FormEnv) (r : AirRecord)
    (l : List (String × FieldKey)) (acc : FormState × List Action) :
    ((l.foldl (applyDropdown env r) acc).1).mode = acc.1.mode := by
  induction l generalizing acc with
  | nil => rfl
  | cons a t ih => simp [List.foldl_cons, ih]

@[simp]
theorem handleRedemptionCodeSelection_lastId (env : FormEnv) (s : FormState) (r : AirRecord) :
    (handleRedemptionCodeSelection env s r).1.lastId = s.lastId := by
  simp only [handleRedemptionCodeSelection]
  simp
  split <;> rfl

@[simp]
theorem handleRedemptionCodeSelection_lastName (env : FormEnv) (s : FormState) (r : AirRecord) :
    (handleRedemptionCodeSelection env s r).1.lastName = s.lastName := by
  simp only [handleRedemptionCodeSelection]
  simp
  split <;> rfl

@[simp]
theorem handleRedemptionCodeSelection_enabled (env : FormEnv) (s : FormState) (r : AirRecord) :
    (handleRedemptionCodeSelection env s r).1.submitEnabled = s.submitEnabled := by
  simp only [handleRedemptionCodeSelection]
  simp
  split <;> rfl

@[simp]
theorem handleRedemptionCodeSelection_mode (env : FormEnv) (s : FormState) (r : AirRecord) :
    (handleRedemptionCodeSelection env s r).1.mode = s.mode := by
  simp only [handleRedemptionCodeSelection]
  simp
  split <;> rfl

@[simp]
theorem nameSuccess_lastId (s : FormState) (q : String) (d : QueryResult) :
    (nameSuccess s q d).1.lastId = s.lastId := by
  simp only [nameSuccess]
  split <;> rfl

@[simp]
theorem nameSuccess_lastName (s : FormState) (q : String) (d : QueryResult) :
    (nameSuccess s q d).1.lastName = s.lastName := by
  simp only [nameSuccess]
  split <;> rfl

@[simp]
theorem nameSuccess_enabled (s : FormState) (q : String) (d : QueryResult) :
    (nameSuccess s q d).1.submitEnabled = s.submitEnabled := by
  simp only [nameSuccess]
  split <;> rfl

/-! ### Demo inputs used by witnesses and counterexamples -/

/-- A blank demo form state (everything visible, unlocked, empty). -/
def fsDemo : FormState :=
  { values := fun _ => "", lastId := none, lastName := none, submitEnabled := false,
    mode := nameModeName, hidden := fun _ => false, locked := fun _ => false,
    mismatchMsg := fun _ => none, mismatchAlertDispatched := false,
    helpTextCode := false, noResultsName := none, noResultsCode := none,
    errorName := none, errorCode := none }

/-- A demo environment with a form element and the autocomplete present. -/
def envDemo : FormEnv :=
  { options := fun _ => [], labels := fun _ => "Field", hasForm := true,
    hasAutocomplete := true }

/-- A demo state with a confirmed selection whose name field was then edited. -/
def fsSel : FormState :=
  { fsDemo with
    lastName := some "Aman Tokyo"
    lastId := some "rec1"
    submitEnabled := true
    values := fun q => if q = .officialEstablishmentName then "Ama" else "x" }

/-- C10: the public reset (`FTGForm.reset`, i.e. `clearAndResetForm`) clears
every field value and all inline messages and re-applies the current mode's
locks, but leaves LastSelection (identity and name) untouched and does not
recompute submit-enablement. -/
theorem claim_C10_reset_preserves_selection (env : FormEnv) (s : FormState) :
    (clearAndResetForm env s).lastId = s.lastId ∧
    (clearAndResetForm env s).lastName = s.lastName ∧
    (clearAndResetForm env s).submitEnabled = s.submitEnabled ∧
    (∀ q, (clearAndResetForm env s).values q = "") ∧
    (∀ q, (clearAndResetForm env s).mismatchMsg q = none) ∧
    (clearAndResetForm env s).noResultsName = none ∧
    (clearAndResetForm env s).noResultsCode = none ∧
    (clearAndResetForm env s).errorName = none ∧
    (clearAndResetForm env s).errorCode = none ∧
    (∀ q, (clearAndResetForm env s).locked q =
      (if q ∈ clearPreventList s.mode then true else s.locked q)) := by
  rw [clearAndResetForm_eq]
  exact ⟨rfl, rfl, rfl, fun q => rfl, fun q => rfl, rfl, rfl, rfl, rfl, fun q => rfl⟩

/-- C6 (amended: visibility and lock state are applied in one direction only):
entering a mode records it, hides every field in the mode's hidden set and
locks every field in its locked set, while fields outside those sets keep
their previous visibility and lock state — a previously hidden field does not
reappear on switching to a mode that does not hide it (see the
counterexample); re-entering the same mode is idempotent. -/
theorem claim_C6_mode_switching (s : FormState) (m : String) (k : FieldKey) :
    (setMode s m).mode = m ∧
    (setMode s m).hidden k = (if k ∈ (modeConfig m).1 then true else s.hidden k) ∧
    (setMode s m).locked k = (if k ∈ (modeConfig m).2 then true else s.locked k) ∧
    setMode (setMode s m) m = setMode s m := by
  refine ⟨by rw [setMode_eq], by rw [setMode_eq], by rw [setMode_eq], ?_⟩
  simp only [setMode_eq]
  apply FormState.ext <;> try rfl
  all_goals
    funext q
    by_cases hq : q ∈ (modeConfig m).1 <;>
      by_cases hq2 : q ∈ (modeConfig m).2 <;> simp [hq, hq2]

/-- C6 counterexample: starting from an all-visible form, entering name-lookup
mode hides the code field; switching to code-lookup mode (whose hidden set is
empty) leaves the code field hidden, contradicting the claim that visibility
is set in both directions ("shown otherwise"). -/
theorem claim_C6_counterexample :
    (setMode (setMode fsDemo nameModeName) codeModeName).hidden .redemptionCode = true ∧
    FieldKey.redemptionCode ∉ (modeConfig codeModeName).1 := by
  refine ⟨rfl, by decide⟩

/-- C4: in any state with a recorded LastSelection.name, a debounced edit or a
blur of the official-name field whose current trimmed text is empty or differs
from the recorded name clears LastSelection (identity and name), resets every
dependent field except the edited name field and the code field, and
recomputes submit-enablement (now disabled). -/
theorem claim_C4_invalidation (env : FormEnv) (s : FormState) (n : String)
    (hform : env.hasForm = true) (hname : s.lastName = some n) (hne : n ≠ "")
    (hcond : jsTrim (s.values .officialEstablishmentName) = "" ∨
             jsTrim (s.values .officialEstablishmentName) ≠ n) :
    ((nameEditHandler env s).lastId = none ∧
     (nameEditHandler env s).lastName = none ∧
     (∀ k, k ≠ FieldKey.officialEstablishmentName → k ≠ FieldKey.redemptionCode →
        (nameEditHandler env s).values k = "") ∧
     (nameEditHandler env s).submitEnabled = false) ∧
    ((nameBlurHandler env s).lastId = none ∧
     (nameBlurHandler env s).lastName = none ∧
     (∀ k, k ≠ FieldKey.officialEstablishmentName → k ≠ FieldKey.redemptionCode →
        (nameBlurHandler env s).values k = "") ∧
     (nameBlurHandler env s).submitEnabled = false) := by
  have hdiff : jsTrim (s.values .officialEstablishmentName) ≠ n := by
    rcases hcond with h | h
    · rw [h]
      exact fun e => hne e.symm
    · exact h
  have hRD : ∀ s' : FormState,
      (resetDependentFields env s'
        [FieldKey.officialEstablishmentName, .redemptionCode]).lastId = none ∧
      (resetDependentFields env s'
        [FieldKey.officialEstablishmentName, .redemptionCode]).lastName = none ∧
      (∀ k, k ≠ FieldKey.officialEstablishmentName → k ≠ FieldKey.redemptionCode →
        (resetDependentFields env s'
          [FieldKey.officialEstablishmentName, .redemptionCode]).values k = "") ∧
      (resetDependentFields env s'
        [FieldKey.officialEstablishmentName, .redemptionCode]).submitEnabled = false := by
    intro s'
    rw [resetDependentFields_eq, if_pos hform]
    refine ⟨rfl, rfl, ?_, rfl⟩
    intro k h1 h2
    simp [h1, h2]
  have hb : (jsTruthyOpt s.lastName &&
      decide (some (jsTrim (s.values .officialEstablishmentName)) ≠ s.lastName)) = true := by
    rw [hname]
    simp [jsTruthyOpt, hne, hdiff]
  constructor
  · simp only [nameEditHandler]
    rw [if_pos hb]
    by_cases hc : jsTrim (s.values .officialEstablishmentName) = ""
    · rw [if_pos hc]
      exact hRD _
    · rw [if_neg hc]
      exact hRD _
  · simp only [nameBlurHandler]
    have hb2 : (decide (jsTrim (s.values .officialEstablishmentName) = "") ||
        (jsTruthyOpt s.lastName &&
          decide (some (jsTrim (s.values .officialEstablishmentName)) ≠ s.lastName))) = true := by
      rw [hb]
      simp
    rw [if_pos hb2]
    exact hRD _

/-- C4 witness: a confirmed selection "Aman Tokyo" whose field now reads
"Ama": both handlers clear the selection, reset dependents and disable
submit, via the claim theorem. -/
theorem claim_C4_invalidation_witness :
    envDemo.hasForm = true ∧ fsSel.lastName = some "Aman Tokyo" ∧
    ("Aman Tokyo" : String) ≠ "" ∧
    jsTrim (fsSel.values .officialEstablishmentName) ≠ "Aman Tokyo" ∧
    (nameEditHandler envDemo fsSel).lastId = none ∧
    (nameEditHandler envDemo fsSel).values .customEstablishmentName = "" ∧
    (nameEditHandler envDemo fsSel).submitEnabled = false ∧
    (nameBlurHandler envDemo fsSel).lastName = none := by
  have h := claim_C4_invalidation envDemo fsSel "Aman Tokyo" rfl rfl (by decide)
    (Or.inr (by decide))
  exact ⟨rfl, rfl, by decide, by decide, h.1.1,
    h.1.2.2.1 _ (by decide) (by decide), h.1.2.2.2, h.2.2.1⟩

/-! ### C5: submit-enablement is derived from LastSelection -/

/-- The selection/submit invariant: the submit control is enabled iff the
last confirmed identity is non-null (and a stored identity is never the empty
string). -/
def SelInv (f : FormState) : Prop :=
  f.submitEnabled = f.lastId.isSome ∧ f.lastId ≠ some ""

theorem SelInv_of_eq (f f' : FormState) (h1 : f'.submitEnabled = f.submitEnabled)
    (h2 : f'.lastId = f.lastId) (h : SelInv f) : SelInv f' := by
  rw [SelInv, h1, h2]
  exact h

theorem resetDependentFields_SelInv (env : FormEnv) (hform : env.hasForm = true)
    (s : FormState) (excl : List FieldKey) :
    SelInv (resetDependentFields env s excl) := by
  rw [SelInv, resetDependentFields_eq, if_pos hform]
  exact ⟨rfl, by simp⟩

theorem codeErrorApply_SelInv (env : FormEnv) (hform : env.hasForm = true)
    (s : FormState) : SelInv (codeErrorApply env s) :=
  resetDependentFields_SelInv env hform _ _

theorem codeSuccessApply_SelInv (env : FormEnv) (hform : env.hasForm = true)
    (s : FormState) (code : String) (data : QueryResult) :
    SelInv (codeSuccessApply env s code data).1 := by
  rcases data with ⟨orecords⟩
  cases orecords with
  | none => exact codeErrorApply_SelInv env hform _
  | some rs =>
      cases rs with
      | nil => exact resetDependentFields_SelInv env hform _ _
      | cons r rest =>
          simp only [codeSuccessApply]
          rw [SelInv]
          rw [updateFormSubmitState_enabled env _ hform]
          simp only [updateFormSubmitState_lastId]
          constructor
          · exact jsTruthyOpt_eq_isSome _ (jsOrNone_ne_some_empty _)
          · exact jsOrNone_ne_some_empty _

theorem onSelectItem_SelInv (env : FormEnv) (hform : env.hasForm = true)
    (s : FormState) (item : ACItem) : SelInv (onSelectItem env s item).1 := by
  simp only [onSelectItem]
  rw [SelInv]
  rw [updateFormSubmitState_enabled env _ hform]
  simp only [updateFormSubmitState_lastId]
  constructor
  · exact jsTruthyOpt_eq_isSome _ (jsOrNone_ne_some_empty _)
  · exact jsOrNone_ne_some_empty _

theorem nameEditHandler_SelInv (env : FormEnv) (hform : env.hasForm = true)
    (s : FormState) (h : SelInv s) : SelInv (nameEditHandler env s) := by
  simp only [nameEditHandler]
  split
  · exact resetDependentFields_SelInv env hform _ _
  · split
    · exact resetDependentFields_SelInv env hform _ _
    · exact h

theorem nameBlurHandler_SelInv (env : FormEnv) (hform : env.hasForm = true)
    (s : FormState) (h : SelInv s) : SelInv (nameBlurHandler env s) := by
  simp only [nameBlurHandler]
  split
  · exact resetDependentFields_SelInv env hform _ _
  · exact h

theorem nameSuccess_SelInv (s : FormState) (q : String) (d : QueryResult)
    (h : SelInv s) : SelInv (nameSuccess s q d).1 :=
  SelInv_of_eq s _ (nameSuccess_enabled s q d) (nameSuccess_lastId s q d) h

theorem stepG_SelInv (env : FormEnv) (hform : env.hasForm = true) (g : GState)
    (e : GEvent) (h : SelInv g.form) : SelInv (stepG env g e).1.form := by
  cases e with
  | nameInput q =>
      simp only [stepG, stepNameInput]
      split
      · exact SelInv_of_eq g.form _ rfl rfl h
      · split
        · exact nameSuccess_SelInv _ _ _ (SelInv_of_eq g.form _ rfl rfl h)
        · split
          · exact nameSuccess_SelInv _ _ _ (SelInv_of_eq g.form _ rfl rfl h)
          · exact SelInv_of_eq g.form _ rfl rfl h
  | codeInput v =>
      simp only [stepG, stepCodeInput]
      split
      · exact resetDependentFields_SelInv env hform _ _
      · split
        · exact codeSuccessApply_SelInv env hform _ _ _
        · exact SelInv_of_eq g.form _ (by rw [resetFields_eq]) (by rw [resetFields_eq]) h
  | nameComplete id res =>
      simp only [stepG, stepNameComplete]
      split
      · exact h
      · split
        · exact h
        · split
          · exact h
          · split
            · exact SelInv_of_eq g.form _ rfl rfl h
            · exact nameSuccess_SelInv _ _ _ (SelInv_of_eq g.form _ rfl rfl h)
  | codeComplete id res =>
      simp only [stepG, stepCodeComplete]
      split
      · exact h
      · split
        · exact h
        · split
          · exact h
          · split
            · exact codeErrorApply_SelInv env hform _
            · exact codeSuccessApply_SelInv env hform _ _ _
  | selectItem item => exact onSelectItem_SelInv env hform _ _
  | nameEdit => exact nameEditHandler_SelInv env hform _ h
  | nameBlur => exact nameBlurHandler_SelInv env hform _ h
  | resetForm =>
      exact SelInv_of_eq g.form _ (clearAndResetForm_enabled env _)
        (clearAndResetForm_lastId env _) h
  | setModeEvent m =>
      exact SelInv_of_eq g.form _ (by simp only [stepG]; rw [setMode_eq])
        (by simp only [stepG]; rw [setMode_eq]) h
  | cooldown => exact SelInv_of_eq g.form _ rfl rfl h

theorem initG_SelInv (env : FormEnv) (hform : env.hasForm = true) (fs0 : FormState) :
    SelInv (initG env fs0).form := by
  simp only [initG, initFormState]
  rw [SelInv]
  rw [updateFormSubmitState_enabled env _ hform]
  simp only [updateFormSubmitState_lastId, setMode_eq]
  exact ⟨rfl, by simp⟩

theorem runG_SelInv (env : FormEnv) (hform : env.hasForm = true) (evs : List GEvent)
    (g : GState) (h : SelInv g.form) : SelInv (runG env evs g).form := by
  induction evs generalizing g with
  | nil => exact h
  | cons e t ih =>
      exact ih _ (stepG_SelInv env hform g e h)

/-- C5: in every state reachable from initialization by the controller's
operations (confirmed selections, invalidations, resets, mode switches,
lookups and their completions), the submit control is enabled iff
LastSelection's identity is non-null; submit-enablement is only ever derived
from LastSelection. -/
theorem claim_C5_submit_derived (env : FormEnv) (fs0 : FormState) (evs : List GEvent)
    (hform : env.hasForm = true) :
    (reachG env fs0 evs).form.submitEnabled =
      (reachG env fs0 evs).form.lastId.isSome ∧
    (reachG env fs0 evs).form.lastId ≠ some "" :=
  runG_SelInv env hform evs _ (initG_SelInv env hform fs0)

/-- C5 witness: after an autocomplete pick of a record with identity "rec1",
the submit control is enabled and the invariant holds, via the claim
theorem. -/
theorem claim_C5_submit_derived_witness :
    (reachG envDemo fsDemo [GEvent.selectItem ⟨"Aman Tokyo", "Aman Tokyo",
        ⟨some "rec1", [(officialNameKey, .str "Aman Tokyo")]⟩⟩]).form.submitEnabled =
      (reachG envDemo fsDemo [GEvent.selectItem ⟨"Aman Tokyo", "Aman Tokyo",
        ⟨some "rec1", [(officialNameKey, .str "Aman Tokyo")]⟩⟩]).form.lastId.isSome ∧
    (reachG envDemo fsDemo [GEvent.selectItem ⟨"Aman Tokyo", "Aman Tokyo",
        ⟨some "rec1", [(officialNameKey, .str "Aman Tokyo")]⟩⟩]).form.lastId ≠ some "" :=
  claim_C5_submit_derived envDemo fsDemo _ rfl

/-! ### C1: request cancellation and supersession -/

/-- Channel well-formedness: any pending fetch that is no longer its channel's
current controller has been aborted. -/
def WFG (g : GState) : Prop :=
  (∀ p ∈ g.inflight, p.2.1 = nameFieldName → g.nameCur ≠ some p.1 → p.1 ∈ g.aborted) ∧
  (∀ p ∈ g.inflight, p.2.1 = codeFieldName → g.codeCur ≠ some p.1 → p.1 ∈ g.aborted)

theorem abMem (cur : Option Nat) (aborted : List Nat) (x : Nat)
    (h : cur ≠ some x → x ∈ aborted) :
    x ∈ (match cur with | some j => j :: aborted | none => aborted) := by
  cases cur with
  | none => exact h (by simp)
  | some j =>
      by_cases hj : j = x
      · exact hj ▸ List.mem_cons_self _ _
      · refine List.mem_cons_of_mem _ (h ?_)
        simp only [Ne, Option.some.injEq]
        exact hj

theorem abMem_super (cur : Option Nat) (aborted : List Nat) (x : Nat) (h : x ∈ aborted) :
    x ∈ (match cur with | some j => j :: aborted | none => aborted) := by
  cases cur with
  | none => exact h
  | some j => exact List.mem_cons_of_mem _ h

theorem stepG_WFG (env : FormEnv) (g : GState) (e : GEvent) (h : WFG g) :
    WFG (stepG env g e).1 := by
  obtain ⟨hn, hc⟩ := h
  cases e with
  | nameInput q =>
      simp only [stepG, stepNameInput]
      split
      · exact ⟨hn, hc⟩
      · split
        · refine ⟨?_, ?_⟩
          · intro p hp hf _
            exact abMem g.nameCur g.aborted p.1 (hn p hp hf)
          · intro p hp hf hcur
            exact abMem_super g.nameCur g.aborted p.1 (hc p hp hf hcur)
        · split
          · refine ⟨?_, ?_⟩
            · intro p hp hf _
              exact abMem g.nameCur g.aborted p.1 (hn p hp hf)
            · intro p hp hf hcur
              exact abMem_super g.nameCur g.aborted p.1 (hc p hp hf hcur)
          · refine ⟨?_, ?_⟩
            · intro p hp hf hcur
              rcases List.mem_cons.mp hp with hp | hp
              · subst hp
                simp at hcur
              · exact abMem g.nameCur g.aborted p.1 (hn p hp hf)
            · intro p hp hf hcur
              rcases List.mem_cons.mp hp with hp | hp
              · subst hp
                simp [nameFieldName, codeFieldName] at hf
              · exact abMem_super g.nameCur g.aborted p.1 (hc p hp hf hcur)
  | codeInput v =>
      simp only [stepG, stepCodeInput]
      split
      · refine ⟨?_, ?_⟩
        · intro p hp hf hcur
          exact abMem_super g.codeCur g.aborted p.1 (hn p hp hf hcur)
        · intro p hp hf _
          exact abMem g.codeCur g.aborted p.1 (hc p hp hf)
      · split
        · refine ⟨?_, ?_⟩
          · intro p hp hf hcur
            exact abMem_super g.codeCur g.aborted p.1 (hn p hp hf hcur)
          · intro p hp hf _
            exact abMem g.codeCur g.aborted p.1 (hc p hp hf)
        · refine ⟨?_, ?_⟩
          · intro p hp hf hcur
            rcases List.mem_cons.mp hp with hp | hp
            · subst hp
              simp [nameFieldName, codeFieldName] at hf
            · exact abMem_super g.codeCur g.aborted p.1 (hn p hp hf hcur)
          · intro p hp hf hcur
            rcases List.mem_cons.mp hp with hp | hp
            · subst hp
              simp at hcur
            · exact abMem g.codeCur g.aborted p.1 (hc p hp hf)
  | nameComplete id res =>
      simp only [stepG, stepNameComplete]
      split
      · exact ⟨hn, hc⟩
      · split
        · exact ⟨hn, hc⟩
        · split
          · exact ⟨fun p hp hf hcur => hn p (List.mem_of_mem_filter hp) hf hcur,
                   fun p hp hf hcur => hc p (List.mem_of_mem_filter hp) hf hcur⟩
          · split
            · exact ⟨fun p hp hf hcur => hn p (List.mem_of_mem_filter hp) hf hcur,
                     fun p hp hf hcur => hc p (List.mem_of_mem_filter hp) hf hcur⟩
            · exact ⟨fun p hp hf hcur => hn p (List.mem_of_mem_filter hp) hf hcur,
                     fun p hp hf hcur => hc p (List.mem_of_mem_filter hp) hf hcur⟩
  | codeComplete id res =>
      simp only [stepG, stepCodeComplete]
      split
      · exact ⟨hn, hc⟩
      · split
        · exact ⟨hn, hc⟩
        · split
          · exact ⟨fun p hp hf hcur => hn p (List.mem_of_mem_filter hp) hf hcur,
                   fun p hp hf hcur => hc p (List.mem_of_mem_filter hp) hf hcur⟩
          · split
            · exact ⟨fun p hp hf hcur => hn p (List.mem_of_mem_filter hp) hf hcur,
                     fun p hp hf hcur => hc p (List.mem_of_mem_filter hp) hf hcur⟩
            · exact ⟨fun p hp hf hcur => hn p (List.mem_of_mem_filter hp) hf hcur,
                     fun p hp hf hcur => hc p (List.mem_of_mem_filter hp) hf hcur⟩
  | selectItem item => exact ⟨hn, hc⟩
  | nameEdit => exact ⟨hn, hc⟩
  | nameBlur => exact ⟨hn, hc⟩
  | resetForm => exact ⟨hn, hc⟩
  | setModeEvent m => exact ⟨hn, hc⟩
  | cooldown => exact ⟨hn, hc⟩

theorem initG_WFG (env : FormEnv) (fs0 : FormState) : WFG (initG env fs0) := by
  constructor <;>
    intro p hp
  · simp [initG] at hp
  · simp [initG] at hp

theorem runG_WFG (env : FormEnv) (evs : List GEvent) (g : GState) (h : WFG g) :
    WFG (runG env evs g) := by
  induction evs generalizing g with
  | nil => exact h
  | cons e t ih => exact ih _ (stepG_WFG env g e h)

theorem reachG_WFG (env : FormEnv) (fs0 : FormState) (evs : List GEvent) :
    WFG (reachG env fs0 evs) :=
  runG_WFG env evs _ (initG_WFG env fs0)

/-- C1: in every reachable controller state, issuing a new request on a
channel aborts (cancels) that channel's current controller — the abort
precedes the new request in the handler's straight-line code — and processing
the completion of any request that is not the channel's most recently issued
one leaves the entire form state unchanged: only the most recently issued
request's result on a channel is ever applied. -/
theorem claim_C1_request_supersession (env : FormEnv) (fs0 : FormState)
    (evs : List GEvent) (id : Nat) (res : Option QueryResult) (q v : String) :
    (∀ j, (reachG env fs0 evs).nameCur = some j → 2 ≤ q.length →
      j ∈ (stepG env (reachG env fs0 evs) (.nameInput q)).1.aborted) ∧
    (∀ j, (reachG env fs0 evs).codeCur = some j →
      j ∈ (stepG env (reachG env fs0 evs) (.codeInput v)).1.aborted) ∧
    ((reachG env fs0 evs).nameCur ≠ some id →
      (stepG env (reachG env fs0 evs) (.nameComplete id res)).1.form =
        (reachG env fs0 evs).form) ∧
    ((reachG env fs0 evs).codeCur ≠ some id →
      (stepG env (reachG env fs0 evs) (.codeComplete id res)).1.form =
        (reachG env fs0 evs).form) := by
  obtain ⟨hn, hc⟩ := reachG_WFG env fs0 evs
  set g := reachG env fs0 evs with hg
  refine ⟨?_, ?_, ?_, ?_⟩
  · intro j hj hq
    have hlt : ¬ q.length < 2 := by omega
    simp only [stepG, stepNameInput]
    rw [if_neg hlt]
    split
    · simp [hj]
    · split
      · simp [hj]
      · simp [hj]
  · intro j hj
    simp only [stepG, stepCodeInput]
    split
    · simp [hj]
    · split
      · simp [hj]
      · simp [hj]
  · intro hcur
    simp only [stepG, stepNameComplete]
    cases hfind : g.inflight.find? (fun t => decide (t.1 = id)) with
    | none => rfl
    | some entry =>
        have hpred := List.find?_some hfind
        have hment := List.mem_of_find?_eq_some hfind
        have hid : entry.1 = id := by simpa using hpred
        dsimp only
        by_cases hfld : entry.2.1 = nameFieldName
        · rw [if_neg (fun hne => hne hfld)]
          have hab : id ∈ g.aborted := by
            have hres := hn entry hment hfld (by rw [hid]; exact hcur)
            rw [hid] at hres
            exact hres
          rw [if_pos hab]
        · rw [if_pos hfld]
  · intro hcur
    simp only [stepG, stepCodeComplete]
    cases hfind : g.inflight.find? (fun t => decide (t.1 = id)) with
    | none => rfl
    | some entry =>
        have hpred := List.find?_some hfind
        have hment := List.mem_of_find?_eq_some hfind
        have hid : entry.1 = id := by simpa using hpred
        dsimp only
        by_cases hfld : entry.2.1 = codeFieldName
        · rw [if_neg (fun hne => hne hfld)]
          have hab : id ∈ g.aborted := by
            have hres := hc entry hment hfld (by rw [hid]; exact hcur)
            rw [hid] at hres
            exact hres
          rw [if_pos hab]
        · rw [if_pos hfld]

/-- C1 witness: after issuing a name search for "ab" (controller 0, in
flight), a second search "abc" aborts controller 0 before issuing, and the
late completion of a never-current controller 7 leaves the form unchanged,
via the claim theorem. -/
theorem claim_C1_request_supersession_witness :
    (reachG envDemo fsDemo [GEvent.nameInput "ab"]).nameCur = some 0 ∧
    0 ∈ (stepG envDemo (reachG envDemo fsDemo [GEvent.nameInput "ab"])
      (.nameInput "abc")).1.aborted ∧
    (stepG envDemo (reachG envDemo fsDemo [GEvent.nameInput "ab"])
        (.nameComplete 7 (some ⟨some []⟩))).1.form =
      (reachG envDemo fsDemo [GEvent.nameInput "ab"]).form := by
  have h := claim_C1_request_supersession envDemo fsDemo [GEvent.nameInput "ab"] 7
    (some ⟨some []⟩) "abc" "x"
  exact ⟨by decide, h.1 0 (by decide) (by decide), h.2.2.1 (by decide)⟩

/-! ### C7: option-mismatch handling, C8: network-call counting -/

/-- Is this action a blocking mismatch alert? -/
def isAlertAct : Action → Bool
  | .alertMismatch _ => true
  | _ => false

/-- Is this action an inline mismatch render? -/
def isRenderAct : Action → Bool
  | .renderMismatch _ _ => true
  | _ => false

/-- Is this action a network request? -/
def isNetCallAct : Action → Bool
  | .netCall _ _ => true
  | _ => false

/-- Number of blocking mismatch alerts among the emitted actions. -/
def alertCount (l : List Action) : Nat := (l.filter isAlertAct).length

/-- Number of inline mismatch renders among the emitted actions. -/
def renderCount (l : List Action) : Nat := (l.filter isRenderAct).length

/-- Number of network calls among the emitted actions. -/
def netCount (l : List Action) : Nat := (l.filter isNetCallAct).length

theorem alertCount_append (a b : List Action) :
    alertCount (a ++ b) = alertCount a + alertCount b := by
  simp [alertCount, List.filter_append]

theorem renderCount_append (a b : List Action) :
    renderCount (a ++ b) = renderCount a + renderCount b := by
  simp [renderCount, List.filter_append]

theorem netCount_append (a b : List Action) :
    netCount (a ++ b) = netCount a + netCount b := by
  simp [netCount, List.filter_append]

/-- A sequence of Option Matcher invocations folded over the form state,
collecting the emitted actions in order. -/
def runMismatches (env : FormEnv) : FormState → List (FieldKey × String) →
    FormState × List Action
  | s, [] => (s, [])
  | s, e :: rest =>
      let r := setSelectValueM env s e.1 e.2
      let rr := runMismatches env r.1 rest
      (rr.1, r.2.1 ++ rr.2)

/-- One mismatching Option Matcher invocation: the inline hint is rendered, a
blocking alert fires exactly when the cooldown flag was clear, the flag is set,
and the form ends cleared with the current mode's locks applied. -/
theorem setSelectValueM_mismatch_spec (env : FormEnv) (s : FormState) (k : FieldKey)
    (t : String) (ht : t ≠ "") (hnm : setSelectValue (env.options k) t = none) :
    (∀ q, (setSelectValueM env s k t).1.values q = "") ∧
    (setSelectValueM env s k t).1.mismatchAlertDispatched = true ∧
    (setSelectValueM env s k t).1.mode = s.mode ∧
    (∀ q, q ∈ clearPreventList s.mode → (setSelectValueM env s k t).1.locked q = true) ∧
    alertCount (setSelectValueM env s k t).2.1 =
      (if s.mismatchAlertDispatched then 0 else 1) ∧
    renderCount (setSelectValueM env s k t).2.1 = 1 := by
  simp only [setSelectValueM]
  rw [if_neg ht, hnm]
  dsimp only
  by_cases hd : s.mismatchAlertDispatched = true
  · simp only [hd, if_true]
    refine ⟨fun q => clearAndResetForm_values env _ q, ?_, ?_, ?_, ?_, ?_⟩
    · rw [clearAndResetForm_flag]
    · rw [clearAndResetForm_mode]
    · intro q hq
      rw [clearAndResetForm_locked]
      simp only [clearAndResetForm_mode]
      simp [hq]
    · simp [alertCount, isAlertAct]
    · simp [renderCount, isRenderAct]
  · have hd' : s.mismatchAlertDispatched = false := by
      cases hb : s.mismatchAlertDispatched
      · rfl
      · exact absurd hb hd
    simp only [hd', Bool.false_eq_true, if_false]
    refine ⟨fun q => clearAndResetForm_values env _ q, ?_, ?_, ?_, ?_, ?_⟩
    · rw [clearAndResetForm_flag]
    · rw [clearAndResetForm_mode]
    · intro q hq
      rw [clearAndResetForm_locked]
      simp only [clearAndResetForm_mode]
      simp [hq]
    · simp [alertCount, isAlertAct]
    · simp [renderCount, isRenderAct]

/-- With the cooldown flag already set, a run of mismatches raises no further
alerts while the inline message still renders on every event; the flag and the
mode persist, and any non-empty run leaves the form cleared and locked. -/
theorem runMismatches_suppressed (env : FormEnv) (s : FormState)
    (evs : List (FieldKey × String)) (hflag : s.mismatchAlertDispatched = true)
    (hmm : ∀ p ∈ evs, p.2 ≠ "" ∧ setSelectValue (env.options p.1) p.2 = none) :
    alertCount (runMismatches env s evs).2 = 0 ∧
    renderCount (runMismatches env s evs).2 = evs.length ∧
    (runMismatches env s evs).1.mode = s.mode ∧
    (runMismatches env s evs).1.mismatchAlertDispatched = true ∧
    (evs = [] → (runMismatches env s evs).1 = s) ∧
    (evs ≠ [] → (∀ q, (runMismatches env s evs).1.values q = "") ∧
      (∀ q, q ∈ clearPreventList s.mode → (runMismatches env s evs).1.locked q = true)) := by
  induction evs generalizing s with
  | nil =>
      refine ⟨rfl, rfl, rfl, hflag, fun _ => rfl, fun h => absurd rfl h⟩
  | cons e rest ih =>
      obtain ⟨he1, he2⟩ := hmm e (List.mem_cons_self _ _)
      have hstep := setSelectValueM_mismatch_spec env s e.1 e.2 he1 he2
      have ihh := ih (setSelectValueM env s e.1 e.2).1 hstep.2.1
        (fun p hp => hmm p (List.mem_cons_of_mem _ hp))
      simp only [runMismatches]
      refine ⟨?_, ?_, ?_, ?_, ?_, ?_⟩
      · rw [alertCount_append, ihh.1, hstep.2.2.2.2.1, hflag]
        simp
      · rw [renderCount_append, ihh.2.1, hstep.2.2.2.2.2]
        simp [Nat.add_comm]
      · rw [ihh.2.2.1, hstep.2.2.1]
      · exact ihh.2.2.2.1
      · intro h
        exact absurd h (by simp)
      · intro _
        cases rest with
        | nil =>
            refine ⟨?_, ?_⟩
            · intro q
              have := ihh.2.2.2.2.1 rfl
              rw [show (runMismatches env (setSelectValueM env s e.1 e.2).1 []).1 =
                (setSelectValueM env s e.1 e.2).1 from rfl]
              exact hstep.1 q
            · intro q hq
              rw [show (runMismatches env (setSelectValueM env s e.1 e.2).1 []).1 =
                (setSelectValueM env s e.1 e.2).1 from rfl]
              exact hstep.2.2.2.1 q hq
        | cons e2 rest2 =>
            have hne2 : (e2 :: rest2) ≠ ([] : List (FieldKey × String)) := by simp
            have hfin := ihh.2.2.2.2.2 hne2
            refine ⟨hfin.1, ?_⟩
            intro q hq
            refine hfin.2 q ?_
            rw [hstep.2.2.1]
            exact hq

/-- C7: whenever the Option Matcher mismatches (in a burst with no cooldown
expiry in between, starting with the cooldown flag clear), an inline mismatch
message is rendered for every mismatch, exactly one blocking alert is raised
in total, and after the alert is acknowledged the form ends cleared and reset
to its locked state for the current mode. -/
theorem claim_C7_option_mismatch (env : FormEnv) (s : FormState)
    (evs : List (FieldKey × String)) (hne : evs ≠ [])
    (hflag : s.mismatchAlertDispatched = false)
    (hmm : ∀ p ∈ evs, p.2 ≠ "" ∧ setSelectValue (env.options p.1) p.2 = none) :
    alertCount (runMismatches env s evs).2 = 1 ∧
    renderCount (runMismatches env s evs).2 = evs.length ∧
    (∀ q, (runMismatches env s evs).1.values q = "") ∧
    (∀ q, q ∈ clearPreventList s.mode → (runMismatches env s evs).1.locked q = true) ∧
    (runMismatches env s evs).1.mode = s.mode := by
  cases evs with
  | nil => exact absurd rfl hne
  | cons e rest =>
      obtain ⟨he1, he2⟩ := hmm e (List.mem_cons_self _ _)
      have hstep := setSelectValueM_mismatch_spec env s e.1 e.2 he1 he2
      have hsupp := runMismatches_suppressed env (setSelectValueM env s e.1 e.2).1 rest
        hstep.2.1 (fun p hp => hmm p (List.mem_cons_of_mem _ hp))
      simp only [runMismatches]
      refine ⟨?_, ?_, ?_, ?_, ?_⟩
      · rw [alertCount_append, hsupp.1, hstep.2.2.2.2.1, hflag]
        simp
      · rw [renderCount_append, hsupp.2.1, hstep.2.2.2.2.2]
        simp [Nat.add_comm]
      · intro q
        cases rest with
        | nil => exact hstep.1 q
        | cons e2 rest2 =>
            exact (hsupp.2.2.2.2.2 (by simp)).1 q
      · intro q hq
        cases rest with
        | nil => exact hstep.2.2.2.1 q hq
        | cons e2 rest2 =>
            refine (hsupp.2.2.2.2.2 (by simp)).2 q ?_
            rw [hstep.2.2.1]
            exact hq
      · rw [hsupp.2.2.1, hstep.2.2.1]

/-- A demo environment for the mismatch scenario: the award-level select has
only a "Silver Tier" option, other selects have none. -/
def envC7 : FormEnv :=
  { options := fun k => if k = .awardLevel then
      [⟨some "Silver Tier", "silver", none⟩] else []
    labels := fun _ => "Award Level"
    hasForm := true
    hasAutocomplete := true }

/-- C7 witness: two consecutive mismatches ("Gold" against a Silver-only
select, then "Top" against an empty one) render two inline messages, raise
exactly one alert, and leave the form cleared and locked, via the claim
theorem. -/
theorem claim_C7_option_mismatch_witness :
    ([((FieldKey.awardLevel : FieldKey), "Gold"), (.partnerStatus, "Top")] ≠
      ([] : List (FieldKey × String))) ∧
    fsDemo.mismatchAlertDispatched = false ∧
    alertCount (runMismatches envC7 fsDemo
      [(.awardLevel, "Gold"), (.partnerStatus, "Top")]).2 = 1 ∧
    renderCount (runMismatches envC7 fsDemo
      [(.awardLevel, "Gold"), (.partnerStatus, "Top")]).2 = 2 ∧
    (runMismatches envC7 fsDemo
      [(.awardLevel, "Gold"), (.partnerStatus, "Top")]).1.values .awardLevel = "" ∧
    (runMismatches envC7 fsDemo
      [(.awardLevel, "Gold"), (.partnerStatus, "Top")]).1.locked .establishmentType = true := by
  have h := claim_C7_option_mismatch envC7 fsDemo
    [(.awardLevel, "Gold"), (.partnerStatus, "Top")] (by simp) rfl (by decide)
  exact ⟨by simp, rfl, h.1, h.2.1, h.2.2.1 _, h.2.2.2.1 _ (by decide)⟩

theorem setSelectValueM_netCount (env : FormEnv) (s : FormState) (k : FieldKey)
    (t : String) : netCount (setSelectValueM env s k t).2.1 = 0 := by
  simp only [setSelectValueM]
  split
  · rfl
  · split
    · rfl
    · split <;> rfl

theorem applyDropdown_netCount (env : FormEnv) (r : AirRecord)
    (acc : FormState × List Action) (p : String × FieldKey) :
    netCount (applyDropdown env r acc p).2 = netCount acc.2 := by
  simp only [applyDropdown]
  split
  · rw [netCount_append, setSelectValueM_netCount]
    rfl
  · rfl


theorem foldl_applyDropdown_netCount (env : FormEnv) (r : AirRecord)
    (l : List (String × FieldKey)) (acc : FormState × List Action) :
    netCount ((l.foldl (applyDropdown env r) acc).2) = netCount acc.2 := by
  induction l generalizing acc with
  | nil => rfl
  | cons a t ih =>
      simp only [List.foldl_cons]
      rw [ih, applyDropdown_netCount]

theorem handleRedemptionCodeSelection_netCount (env : FormEnv) (s : FormState)
    (r : AirRecord) : netCount (handleRedemptionCodeSelection env s r).2 = 0 := by
  simp only [handleRedemptionCodeSelection]
  rw [netCount_append, netCount_append, netCount_append]
  rw [foldl_applyDropdown_netCount]
  rw [setSelectValueM_netCount, setSelectValueM_netCount, setSelectValueM_netCount]
  rfl

theorem codeSuccessApply_netCount (env : FormEnv) (s : FormState) (code : String)
    (data : QueryResult) : netCount (codeSuccessApply env s code data).2 = 0 := by
  rcases data with ⟨orecords⟩
  cases orecords with
  | none => rfl
  | some rs =>
      cases rs with
      | nil => rfl
      | cons r rest =>
          simp only [codeSuccessApply]
          exact handleRedemptionCodeSelection_netCount env _ r

/-- C8 (amended: a cache hit issues no network call, see the counterexample):
a debounced code input whose trimmed text is not exactly 8 characters long
never issues a network call, shows the inline length error and clears every
dependent field; an exactly-8-character code issues exactly one network call
when the value is not cached and none when it is. -/
theorem claim_C8_code_length_gating (env : FormEnv) (g : GState) (v : String) :
    ((jsTrim v).length ≠ 8 →
      netCount (stepG env g (.codeInput v)).2 = 0 ∧
      (stepG env g (.codeInput v)).1.form.helpTextCode = true ∧
      (∀ k, k ≠ FieldKey.redemptionCode →
        (stepG env g (.codeInput v)).1.form.values k = "")) ∧
    ((jsTrim v).length = 8 →
      netCount (stepG env g (.codeInput v)).2 =
        (if (alookup g.cache (cacheKeyFor codeFieldName (jsTrim v))).isSome
          then 0 else 1)) := by
  constructor
  · intro h8
    simp only [stepG, stepCodeInput]
    rw [if_pos h8]
    refine ⟨rfl, ?_, ?_⟩
    · rw [resetDependentFields_eq]
      split <;> rfl
    · intro k hk
      rw [resetDependentFields_eq]
      have hv : ∀ f : FormState,
          (if env.hasForm then
            { f with
              values := fun q =>
                if q ∈ [FieldKey.redemptionCode, FieldKey.officialEstablishmentName]
                then f.values q else ""
              lastId := none
              lastName := none
              submitEnabled := false }
          else
            { f with
              values := fun q =>
                if q ∈ [FieldKey.redemptionCode, FieldKey.officialEstablishmentName]
                then f.values q else ""
              lastId := none
              lastName := none }).values k =
            (if k ∈ [FieldKey.redemptionCode, FieldKey.officialEstablishmentName]
              then f.values k else "") := by
        intro f
        split <;> rfl
      rw [hv]
      by_cases hmem : k ∈ [FieldKey.redemptionCode, FieldKey.officialEstablishmentName]
      · rw [if_pos hmem]
        rcases List.mem_cons.mp hmem with h | h
        · exact absurd h hk
        · have hko : k = FieldKey.officialEstablishmentName := by simpa using h
          subst hko
          rw [resetFields_eq]
          simp
      · rw [if_neg hmem]
  · intro h8
    simp only [stepG, stepCodeInput]
    rw [if_neg (by rw [h8]; simp)]
    simp only [cacheGet]
    cases hlook : alookup g.cache (cacheKeyFor codeFieldName (jsTrim v)) with
    | none =>
        simp only [Option.isSome_none, Bool.false_eq_true, if_false]
        rfl
    | some data =>
        simp only [Option.isSome_some, if_true]
        exact codeSuccessApply_netCount env _ _ data

/-- C8 witness: a 3-character code issues no network call and shows the
length error; a fresh 8-character code on an empty cache issues exactly one
call, via the claim theorem. -/
theorem claim_C8_code_length_gating_witness :
    (jsTrim "abc").length ≠ 8 ∧
    netCount (stepG envDemo (initG envDemo fsDemo) (.codeInput "abc")).2 = 0 ∧
    (stepG envDemo (initG envDemo fsDemo) (.codeInput "abc")).1.form.helpTextCode = true ∧
    (stepG envDemo (initG envDemo fsDemo)
      (.codeInput "abc")).1.form.values .customEstablishmentName = "" ∧
    (jsTrim "ABCD1234").length = 8 ∧
    netCount (stepG envDemo (initG envDemo fsDemo) (.codeInput "ABCD1234")).2 = 1 := by
  have h1 := (claim_C8_code_length_gating envDemo (initG envDemo fsDemo) "abc").1
    (by decide)
  have h2 := (claim_C8_code_length_gating envDemo (initG envDemo fsDemo) "ABCD1234").2
    (by decide)
  refine ⟨by decide, h1.1, h1.2.1, h1.2.2 _ (by decide), by decide, ?_⟩
  rw [h2]
  decide

/-- C8 counterexample: re-entering an 8-character code whose lookup already
completed (and was cached) issues zero network calls for that debounced input
event, not exactly one. -/
theorem claim_C8_counterexample :
    (jsTrim "ABCD1234").length = 8 ∧
    netCount (stepG envDemo (reachG envDemo fsDemo
        [.codeInput "ABCD1234", .codeComplete 0 (some ⟨some []⟩), .codeInput "XY"])
      (.codeInput "ABCD1234")).2 = 0 := by
  exact ⟨by decide, by decide⟩

end FTG
